import Mathlib

/-!
Verification of the JTe "Pauta" scraper (src/PAUTA-JRT2.js).

The file embeds the pure computational core of the script (CSV formatting,
Brazilian date arithmetic on top of JavaScript `Date` semantics, the date
range generator, the record extraction mapper) as executable Lean functions,
and embeds the asynchronous UI-driving loops (retry envelope, stabilization
detector, the two date-selection strategies, calendar month navigation) as
fuel-bounded state machines over an abstract page environment: every DOM
read/click/wait primitive of the Playwright session facade is a parameter,
so theorems quantify over all possible behaviors of the remote UI.

JavaScript `Date` values are modelled as proleptic-Gregorian civil triples
(year, month 1-12, day 1-31); `getTime()` is modelled (up to the constant
86400000 scale and time-of-day offset, which are irrelevant to every
comparison in the source) by the `rata` day number, and `getDay()` by
`rata mod 7` (verified against known weekdays below).
-/

/- ===== Characters, digits and number strings ===== -/

/-- Decimal digit test, as in the character class of the source regexes. -/
def isDigitCh (c : Char) : Bool := decide ('0' ≤ c) && decide (c ≤ '9')

/-- Value of a decimal digit character. -/
def digitVal (c : Char) : Nat := c.toNat - '0'.toNat

/-- Decimal digits of `n`, most significant first; `fuel`-bounded so the
kernel can evaluate it (`fuel > n` always suffices). -/
def natDigitsAux : Nat → Nat → List Char
  | 0, _ => []
  | fuel + 1, n =>
    if n < 10 then [Nat.digitChar n]
    else natDigitsAux fuel (n / 10) ++ [Nat.digitChar (n % 10)]

/-- Decimal digit string of a natural number, as produced by JS `String(n)`. -/
def natDigits (n : Nat) : List Char := natDigitsAux (n + 1) n

/-- Characters of JS `String(z)` for an integer `z`. -/
def intChars (z : Int) : List Char :=
  if z < 0 then '-' :: natDigits (-z).toNat else natDigits z.toNat

/-- `String(n).padStart(2, '0')`, as used for day and month fields. -/
def pad2ch (n : Nat) : List Char :=
  if n < 10 then '0' :: natDigits n else natDigits n

/-- JS `Number(s)` on an unsigned string: `Number('') = 0`; a nonempty
all-digit string evaluates in base 10; anything else is `NaN` (`none`). -/
def jsNumberCore (l : List Char) : Option Nat :=
  if l = [] then some 0
  else if l.all isDigitCh then some (l.foldl (fun a c => a * 10 + digitVal c) 0)
  else none

/-- JS `Number(s)` restricted to optionally-signed integer strings; all the
strings the script ever feeds it have this shape.  `none` models `NaN`. -/
def jsNumber (l : List Char) : Option Int :=
  match l with
  | [] => (jsNumberCore []).map (fun n => (n : Int))
  | c :: r =>
    if c = '-' then
      if r = [] then none else (jsNumberCore r).map (fun n => -(n : Int))
    else (jsNumberCore (c :: r)).map (fun n => (n : Int))

/- ===== Generic string helpers used by the script ===== -/

/-- Whitespace as removed by JS `String.prototype.trim`. -/
def isWsCh (c : Char) : Bool :=
  c = ' ' || c = '\t' || c = '\n' || c = '\r' || c = ' ' || c = '\x0b' || c = '\x0c'

/-- `trim` on a character list. -/
def trimL (l : List Char) : List Char :=
  ((l.dropWhile isWsCh).reverse.dropWhile isWsCh).reverse

/-- JS `s.trim()`. -/
def trimStr (s : String) : String := String.mk (trimL s.toList)

/-- Does `l` start with `pat`? -/
def startsWithL : List Char → List Char → Bool
  | [], _ => true
  | _ :: _, [] => false
  | p :: ps, c :: cs => p == c && startsWithL ps cs

/-- Is `pat` a contiguous substring of `l`? -/
def isInfixL (pat : List Char) : List Char → Bool
  | [] => startsWithL pat []
  | c :: cs => startsWithL pat (c :: cs) || isInfixL pat cs

/-- JS `s.includes(sub)`. -/
def containsStr (s sub : String) : Bool := isInfixL sub.toList s.toList

/-- `s.split('/')` on character lists. -/
def splitSlash : List Char → List (List Char)
  | [] => [[]]
  | c :: r => if c = '/' then [] :: splitSlash r else (splitSlash r).modifyHead (c :: ·)

/- ===== JavaScript Date model ===== -/

/-- A civil date: the state of a JS `Date` value (time of day is constant
throughout the script and never observed, so it is omitted).  `m` is the
1-based month (`getMonth() + 1`), `d` the day of month (`getDate()`). -/
structure MyDate where
  y : Int
  m : Nat
  d : Nat
deriving DecidableEq, Repr

/-- Gregorian leap year. -/
def isLeap (y : Int) : Bool :=
  (y.emod 4 = 0 && y.emod 100 ≠ 0) || y.emod 400 = 0

/-- Days in month `m` (1-12) of year `y`. -/
def daysInMonth (y : Int) (m : Nat) : Nat :=
  match m with
  | 1 => 31
  | 2 => if isLeap y then 29 else 28
  | 3 => 31
  | 4 => 30
  | 5 => 31
  | 6 => 30
  | 7 => 31
  | 8 => 31
  | 9 => 30
  | 10 => 31
  | 11 => 30
  | 12 => 31
  | _ => 30

/-- Total days in months `1..m` of year `y`. -/
def monthsDays (y : Int) : Nat → Nat
  | 0 => 0
  | m + 1 => monthsDays y m + daysInMonth y (m + 1)

/-- A triple that denotes an actual calendar date. -/
def ValidDate (dt : MyDate) : Prop :=
  1 ≤ dt.m ∧ dt.m ≤ 12 ∧ 1 ≤ dt.d ∧ dt.d ≤ daysInMonth dt.y dt.m

instance (dt : MyDate) : Decidable (ValidDate dt) := by
  unfold ValidDate; infer_instance

/-- Day count before January 1 of year `y` (an affine reference point; only
differences matter). -/
def daysBeforeYear (y : Int) : Int :=
  365 * y + (y - 1).ediv 4 - (y - 1).ediv 100 + (y - 1).ediv 400

/-- Linear day number of a date; models `getTime()` up to the positive
affine transform `t = 86400000 * rata + c`, which preserves every
comparison the script performs. -/
def rata (dt : MyDate) : Int :=
  daysBeforeYear dt.y + (monthsDays dt.y (dt.m - 1) : Int) + ((dt.d : Int) - 1)

/-- JS `getDay()`: 0 = Sunday … 6 = Saturday. -/
def getDay (dt : MyDate) : Int := (rata dt).emod 7

/-- The calendar successor of a date (used to model `setDate(getDate()+1)`
and normalization of overflowing day-of-month values). -/
def succDay (dt : MyDate) : MyDate :=
  if dt.d < daysInMonth dt.y dt.m then ⟨dt.y, dt.m, dt.d + 1⟩
  else if dt.m < 12 then ⟨dt.y, dt.m + 1, 1⟩
  else ⟨dt.y + 1, 1, 1⟩

/-- The calendar predecessor of a date. -/
def predDay (dt : MyDate) : MyDate :=
  if 1 < dt.d then ⟨dt.y, dt.m, dt.d - 1⟩
  else if 1 < dt.m then ⟨dt.y, dt.m - 1, daysInMonth dt.y (dt.m - 1)⟩
  else ⟨dt.y - 1, 12, 31⟩

/-- Add `k` days. -/
def addDays (dt : MyDate) : Nat → MyDate
  | 0 => dt
  | k + 1 => succDay (addDays dt k)

/-- Subtract `k` days. -/
def subDays (dt : MyDate) : Nat → MyDate
  | 0 => dt
  | k + 1 => predDay (subDays dt k)

/-- JS `new Date(y, mIdx, d)` with 0-based month index `mIdx` (any integer,
normalized with floor semantics as in JS) and day-of-month `d` (any integer,
values outside `1..daysInMonth` roll over into adjacent months, as in JS). -/
def jsMkDate (y mIdx d : Int) : MyDate :=
  let y2 := y + mIdx.ediv 12
  let m2 := (mIdx.emod 12).toNat + 1
  if 1 ≤ d then addDays ⟨y2, m2, 1⟩ (d - 1).toNat
  else subDays ⟨y2, m2, 1⟩ (1 - d).toNat

/-- JS `dt.setDate(n)` (returns the updated date). -/
def jsSetDate (dt : MyDate) (n : Int) : MyDate := jsMkDate dt.y ((dt.m : Int) - 1) n

/-- JS `dt.setMonth(mIdx)` (returns the updated date). -/
def jsSetMonth (dt : MyDate) (mIdx : Int) : MyDate := jsMkDate dt.y mIdx dt.d

/- ===== Source date helpers ===== -/

/-- `parseBRDate(br)`: split on '/', `Number` the three fields, build
`new Date(yyyy, mm - 1, dd)`.  `none` models an Invalid Date (`NaN`
components). -/
def parseBRDate (br : String) : Option MyDate :=
  match splitSlash br.toList with
  | p1 :: p2 :: p3 :: _ =>
    match jsNumber p1, jsNumber p2, jsNumber p3 with
    | some dd, some mm, some yyyy => some (jsMkDate yyyy (mm - 1) dd)
    | _, _, _ => none
  | _ => none

/-- The canonical `DD/MM/YYYY` formatting idiom the script applies to a
`Date` (zero-padded day and month, plain year), shared by
`getTodayBR` and the body of `gerarDatasProximosDoisMeses`. -/
def formatBR (dt : MyDate) : String :=
  String.mk (pad2ch dt.d ++ '/' :: pad2ch dt.m ++ '/' :: intChars dt.y)

/-- `getTodayBR()` parameterized by the current date. -/
def getTodayBR (hoje : MyDate) : String := formatBR hoje

/-- `isWeekdayBR(dataBR)`: day-of-week of the parsed date is neither Sunday
nor Saturday.  On an Invalid Date both `NaN !== 0` and `NaN !== 6` hold in
JS, hence `true`. -/
def isWeekdayBR (dataBR : String) : Bool :=
  match parseBRDate dataBR with
  | some dt => decide (getDay dt ≠ 0) && decide (getDay dt ≠ 6)
  | none => true

/-- `brToIsoDateString(br)`: re-reads the components of the parsed date as
`YYYY-MM-DD`.  On an Invalid Date every component prints as `NaN`. -/
def brToIsoDateString (br : String) : String :=
  match parseBRDate br with
  | some dt => String.mk (intChars dt.y ++ '-' :: pad2ch dt.m ++ '-' :: pad2ch dt.d)
  | none => "NaN-NaN-NaN"

/-- The loop of `gerarDatasProximosDoisMeses`: while `current <= fim`
(a `getTime` comparison), push the formatted date when it is a weekday and
advance one day.  Structurally bounded by `fuel`; the wrapper passes enough
fuel for the loop to run to completion. -/
def gerarLoop (fim : MyDate) : Nat → MyDate → List String
  | 0, _ => []
  | fuel + 1, current =>
    if rata current ≤ rata fim then
      let dataBR := formatBR current
      (if isWeekdayBR dataBR then [dataBR] else []) ++ gerarLoop fim fuel (succDay current)
    else []

/-- `gerarDatasProximosDoisMeses()` parameterized by today's date:
`current = hoje + 7 days`, `fim = (hoje.setMonth(getMonth()+2)) + 10 days`,
collect the weekday dates of `[current, fim]`. -/
def gerarDatasProximosDoisMeses (hoje : MyDate) : List String :=
  let current := jsSetDate hoje ((hoje.d : Int) + 7)
  let fim0 := jsSetMonth hoje ((hoje.m : Int) - 1 + 2)
  let fim := jsSetDate fim0 ((fim0.d : Int) + 10)
  gerarLoop fim ((rata fim - rata current).toNat + 1) current

/-- `rata` of the date denoted by a string (0 for unparsable strings; used
only to state ordering of generated lists, whose members all parse). -/
def rataS (s : String) : Int :=
  match parseBRDate s with
  | some dt => rata dt
  | none => 0

/- ===== CSV helpers (csvEscape, writeCsv) ===== -/

/-- `s.replace(/"/g, '""')`. -/
def replaceQuotes : List Char → List Char
  | [] => []
  | c :: r => if c = '"' then '"' :: '"' :: replaceQuotes r else c :: replaceQuotes r

/-- `csvEscape(value)`: `null`/`undefined` (`none`) become the empty string;
a string matching `/[;"\n\r]/` is wrapped in double quotes with inner double
quotes doubled; anything else passes through verbatim. -/
def csvEscape (value : Option String) : String :=
  match value with
  | none => ""
  | some s =>
    if s.toList.any (fun c => c == ';' || c == '"' || c == '\n' || c == '\r') then
      String.mk ('"' :: replaceQuotes s.toList ++ ['"'])
    else s

/-- The `lines` array built by `writeCsv`: one header line, then one line
per row, each row's fields looked up by header name and escaped, joined
with the `;` delimiter. -/
def csvLines (headers : List String) (rows : List (String → Option String)) : List String :=
  (String.intercalate (";") (headers.map (fun h => csvEscape (some h)))) ::
    rows.map (fun row => String.intercalate (";") (headers.map (fun h => csvEscape (row h))))

/-- The file content written by `writeCsv`: the byte-order mark followed by
the lines joined with newlines. -/
def writeCsv (headers : List String) (rows : List (String → Option String)) : String :=
  "﻿" ++ String.intercalate ("\n") (csvLines headers rows)

/- ===== Extraction mapper (extrairProcessosDaPauta) ===== -/

/-- One `ion-item` of the result list as observed in the DOM: the text
content of each fixed sub-element when present, and the list of
`.item-desc-small.item-text-wrap` description texts in document order. -/
structure PautaItem where
  sessaoEl : Option String
  palavrasRightEl : Option String
  negritoEl : Option String
  descs : List String
deriving DecidableEq, Repr

/-- One extracted record. -/
structure Processo where
  numeroProcesso : String
  sessao : String
  juiz : String
  reclamante : String
  reclamada : String
deriving DecidableEq, Repr

/-- `textContent.replace(/ /g, ' ').trim()`. -/
def normalizeText (s : String) : String :=
  trimStr (String.mk (s.toList.map (fun c => if c = ' ' then ' ' else c)))

/-- The `getText` helper of the mapper: empty string when the sub-element
is absent, normalized text otherwise. -/
def getTextOf (o : Option String) : String :=
  match o with
  | none => ""
  | some s => normalizeText s

/-- The per-item body of the extraction mapper. -/
def mkProcesso (item : PautaItem) : Processo :=
  let hora := getTextOf item.sessaoEl
  let status := getTextOf item.palavrasRightEl
  let numeroProcesso := getTextOf item.negritoEl
  let partes := (item.descs.map normalizeText).filter (fun s => s ≠ "")
  { numeroProcesso := numeroProcesso
    sessao := String.intercalate (" - ") (([hora, status]).filter (fun s => s ≠ ""))
    juiz := (partes[0]?).getD ""
    reclamante := (partes[1]?).getD ""
    reclamada := (partes[2]?).getD "" }

/-- `extrairProcessosDaPauta(page)` on the observed item list: early-return
`[]` when the count is zero, otherwise map every item. -/
def extrairProcessosDaPauta (items : List PautaItem) : List Processo :=
  if items.length = 0 then [] else items.map mkProcesso

/- ===== Retry envelope (retryOperation) ===== -/

/-- `retryOperation(page, operation, maxRetries, delayMs)`.  The abstract
page state is `σ`; `operation` consumes the state and either succeeds with
an `α` or throws an `ε`; `fechar` is `fecharOverlays` and `wait` the
`delayMs` timeout.  The result is `none` exactly in the vacuous JS case
`maxRetries = 0` (the loop body never runs and the function returns
`undefined`). -/
def retryOperation {σ ε α : Type} (op : σ → Except ε α × σ) (fechar wait : σ → σ) :
    Nat → σ → Option (Except ε α × σ)
  | 0, _ => none
  | n + 1, s =>
    match op s with
    | (Except.ok a, s1) => some (Except.ok a, s1)
    | (Except.error e, s1) =>
      if n = 0 then some (Except.error e, s1)
      else retryOperation op fechar wait n (wait (fechar s1))

/-- State in which attempt `k` (0-based) of `retryOperation` runs: each
failed attempt is followed by the overlay guard and then the delay. -/
def attemptState {σ ε α : Type} (op : σ → Except ε α × σ) (fechar wait : σ → σ) (s : σ) :
    Nat → σ
  | 0 => s
  | k + 1 => wait (fechar (op (attemptState op fechar wait s k)).2)

/- ===== Stabilization detector (esperarPautaEstabilizar) ===== -/

/-- The spinner/progress-bar probes and the result-count polling primitives
of `esperarPautaEstabilizar`, over abstract page state `σ`:  `visN`/`hidN`
are `isVisible`/`waitFor hidden` for the three loading indicators, `count`
reads `ion-list ion-item` entry count (`catch` yields 0, folded into the
environment), `w600` and `w250` are the confirmation and polling waits. -/
structure EstabEnv (σ : Type) where
  vis1 : σ → Bool
  vis2 : σ → Bool
  vis3 : σ → Bool
  hid1 : σ → σ
  hid2 : σ → σ
  hid3 : σ → σ
  count : σ → Nat
  w600 : σ → σ
  w250 : σ → σ

/-- One spinner wait: if the indicator is visible, wait for it to hide. -/
def spinnerStep {σ : Type} (vis : σ → Bool) (hid : σ → σ) (s : σ) : σ :=
  if vis s then hid s else s

/-- The counting loop of `esperarPautaEstabilizar`; `last` is the previous
count (`none` models the initial `-1`, unequal to every count).  Returns
the final state and the number of loop iterations consumed. -/
def estabLoop {σ : Type} (E : EstabEnv σ) : Nat → Option Nat → σ → σ × Nat
  | 0, _, s => (s, 0)
  | fuel + 1, last, s =>
    let c := E.count s
    if some c = last then
      let s1 := E.w600 s
      if E.count s1 = c then (s1, 1)
      else
        let r := estabLoop E fuel (some c) (E.w250 s1)
        (r.1, r.2 + 1)
    else
      let r := estabLoop E fuel (some c) (E.w250 s)
      (r.1, r.2 + 1)

/-- `esperarPautaEstabilizar(page)`: wait out the three loading indicators,
then poll the entry count for at most 20 iterations. -/
def esperarPautaEstabilizar {σ : Type} (E : EstabEnv σ) (s : σ) : σ × Nat :=
  estabLoop E 20 none
    (spinnerStep E.vis3 E.hid3 (spinnerStep E.vis2 E.hid2 (spinnerStep E.vis1 E.hid1 s)))

/- ===== Linear Stepper Navigator (irAteDataPorBotoes) ===== -/

/-- The stepper-variant page primitives over abstract state `σ`:
`fechar` is `fecharOverlays`; `hasPrevBtn`/`hasNextBtn` are
`ionExistsByCss` for the two directional controls (pure DOM queries);
`ler` is `lerTextoDataExibida` (already-trimmed label text, empty string on
failure); `clickPrev`/`clickNext` are `clickIonButtonByCss` (whether a
button was found and clicked, plus the ensuing state); `wait` is any
`waitForTimeout`. -/
structure StepperEnv (σ : Type) where
  fechar : σ → σ
  hasPrevBtn : σ → Bool
  hasNextBtn : σ → Bool
  ler : σ → String
  clickPrev : σ → Bool × σ
  clickNext : σ → Bool × σ
  wait : σ → σ

/-- `extrairDataBR(texto)`: first `\b`-delimited `DD/MM/YYYY` token of the
trimmed text, or the empty string.  `brTokenAt` checks a match at the head
of the list (including the right word boundary); `extrairAux` scans for the
first position whose left neighbour is not a word character. -/
def isWordCh (c : Char) : Bool := c.isAlphanum || c = '_'

/-- Token match at the current position. -/
def brTokenAt (l : List Char) : Option (List Char) :=
  match l with
  | d1 :: d2 :: c1 :: m1 :: m2 :: c2 :: y1 :: y2 :: y3 :: y4 :: rest =>
    if c1 = '/' && c2 = '/' && isDigitCh d1 && isDigitCh d2 && isDigitCh m1 &&
        isDigitCh m2 && isDigitCh y1 && isDigitCh y2 && isDigitCh y3 && isDigitCh y4 &&
        (match rest with | [] => true | c :: _ => !isWordCh c) then
      some [d1, d2, '/', m1, m2, '/', y1, y2, y3, y4]
    else none
  | _ => none

/-- Scan for the first boundary-respecting token; `prevW` tells whether the
previous character was a word character. -/
def extrairAux : Bool → List Char → Option (List Char)
  | _, [] => none
  | prevW, c :: rest =>
    match (if prevW then none else brTokenAt (c :: rest)) with
    | some tok => some tok
    | none => extrairAux (isWordCh c) rest

/-- `extrairDataBR(texto)`. -/
def extrairDataBR (texto : String) : String :=
  match extrairAux false (trimStr texto).toList with
  | some tok => String.mk tok
  | none => ""

/-- `parseBRDate(s).getTime()` up to the order-preserving affine transform;
`none` models `NaN`. -/
def rataStrOpt (s : String) : Option Int := (parseBRDate s).map rata

/-- JS `>` on possibly-`NaN` numbers: false whenever either side is `NaN`. -/
def optGt (a b : Option Int) : Bool :=
  match a, b with
  | some x, some y => decide (y < x)
  | _, _ => false

/-- The direction choice of one stepper step: with an extractable date
token, backward exactly when the backward control exists and the displayed
date is after the target; forward otherwise (also when no token is
extractable). -/
def escolherDirecao (raw : String) (alvoT : Option Int) (hasPrev : Bool) : Int :=
  let atualBR := extrairDataBR raw
  if atualBR ≠ "" then
    if hasPrev && optGt (rataStrOpt atualBR) alvoT then -1 else 1
  else 1

/-- Polling budget of `esperarTextoMudar` (2500 ms at 80 ms per poll). -/
def TM_FUEL : Nat := 31

/-- `esperarTextoMudar(page, anterior, timeoutMs)`: poll the label until it
is nonempty and differs from `anterior`; on timeout return a final fresh
read.  The returned string is always the label of the returned state. -/
def esperarTextoMudar {σ : Type} (E : StepperEnv σ) (anterior : String) :
    Nat → σ → String × σ
  | 0, s => (E.ler s, s)
  | fuel + 1, s =>
    let atual := E.ler s
    if atual ≠ "" ∧ atual ≠ anterior then (atual, s)
    else esperarTextoMudar E anterior fuel (E.wait s)

/-- The `for (step …)` loop of `irAteDataPorBotoes`.  The third component
counts the directional click attempts performed. -/
def irAteLoop {σ : Type} (E : StepperEnv σ) (alvoBR : String) (alvoT : Option Int)
    (hasPrev : Bool) : Nat → σ → Bool × σ × Nat
  | 0, s => (false, s, 0)
  | fuel + 1, s =>
    let raw := E.ler s
    if raw ≠ "" ∧ containsStr raw alvoBR then (true, s, 0)
    else
      let dir := escolherDirecao raw alvoT hasPrev
      let c := if dir = -1 then E.clickPrev s else E.clickNext s
      if c.1 = false then
        let r := irAteLoop E alvoBR alvoT hasPrev fuel (E.wait c.2)
        (r.1, r.2.1, r.2.2 + 1)
      else
        let m := esperarTextoMudar E raw TM_FUEL c.2
        if m.1 ≠ "" ∧ containsStr m.1 alvoBR then (true, m.2, 1)
        else
          let r := irAteLoop E alvoBR alvoT hasPrev fuel (E.wait m.2)
          (r.1, r.2.1, r.2.2 + 1)

/-- `irAteDataPorBotoes(page, alvoBR, maxSteps)`: dismiss overlays, fail
immediately when neither directional control exists, succeed without
clicking when the label already contains the target, otherwise run the
stepping loop. -/
def irAteDataPorBotoes {σ : Type} (E : StepperEnv σ) (alvoBR : String) (maxSteps : Nat)
    (s : σ) : Bool × σ × Nat :=
  let s1 := E.fechar s
  let alvoT := rataStrOpt alvoBR
  let hasPrev := E.hasPrevBtn s1
  let hasNext := E.hasNextBtn s1
  if hasNext = false ∧ hasPrev = false then (false, s1, 0)
  else
    let raw := E.ler s1
    if raw ≠ "" ∧ containsStr raw alvoBR then (true, s1, 0)
    else irAteLoop E alvoBR alvoT hasPrev maxSteps s1

/-- The stepper variant of `selecionarDataComConfirmacao` (second workflow):
retry `irAteDataPorBotoes` with 220 steps up to `maxTentativas` times; the
surrounding `lerTextoDataExibida` logging reads are pure and omitted. -/
def selecionarDataComConfirmacaoBtns {σ : Type} (E : StepperEnv σ) (dataBR : String) :
    Nat → σ → Bool × σ
  | 0, s => (false, s)
  | t + 1, s =>
    let r := irAteDataPorBotoes E dataBR 220 s
    if r.1 then (true, r.2.1)
    else selecionarDataComConfirmacaoBtns E dataBR t (E.wait (E.fechar r.2.1))

/- ===== Calendar-Grid strategy ===== -/

/-- Page primitives of the calendar variant of `selecionarDataComConfirmacao`
(first workflow): `clickCal` is the whole `selecionarDataNoCalendario`
attempt (whether a day cell was clicked, plus the ensuing state), `readBtn`
the `innerText` of the date button (`catch` yields the empty string) and
`wait` any `waitForTimeout`. -/
structure CalConfEnv (σ : Type) where
  clickCal : σ → Bool × σ
  readBtn : σ → String
  wait : σ → σ

/-- The calendar variant of `selecionarDataComConfirmacao(page, dataBR,
maxTentativas)`: after a successful day click, re-read the displayed date
and succeed only on exact equality with the target string. -/
def selecionarDataComConfirmacao {σ : Type} (E : CalConfEnv σ) (dataBR : String) :
    Nat → σ → Bool × σ
  | 0, s => (false, s)
  | t + 1, s =>
    let r := E.clickCal s
    if r.1 = false then selecionarDataComConfirmacao E dataBR t (E.wait r.2)
    else
      let dataVisivel := trimStr (E.readBtn r.2)
      if dataVisivel = dataBR then (true, r.2)
      else selecionarDataComConfirmacao E dataBR t (E.wait r.2)

/-- `sameMonthYear(a, b)`: equal `getFullYear()` and equal `getMonth()`. -/
def sameMonthYear (a b : MyDate) : Bool := a.y == b.y && a.m == b.m

/-- Page primitives of `navegarParaMes`: `approx` is
`getCalendarHeaderDateApprox` (`none` when the header is unreadable),
`next`/`prev` click the month arrows, `wait` the 120 ms timeout. -/
structure CalNavEnv (σ : Type) where
  approx : σ → Option MyDate
  next : σ → σ
  prev : σ → σ
  wait : σ → σ

/-- `navegarParaMes(page, targetDate, maxSteps)`: read the header; if
unreadable, advance forward blindly; if it shows the target month/year,
stop; otherwise compare the linearized keys `year*12 + monthIdx` and step
forward when the target key is greater, backward when smaller. -/
def navegarParaMes {σ : Type} (E : CalNavEnv σ) (targetDate : MyDate) :
    Nat → σ → Bool × σ
  | 0, s => (false, s)
  | fuel + 1, s =>
    match E.approx s with
    | none => navegarParaMes E targetDate fuel (E.wait (E.next s))
    | some a =>
      if sameMonthYear a targetDate then (true, s)
      else
        let curKey := a.y * 12 + ((a.m : Int) - 1)
        let tgtKey := targetDate.y * 12 + ((targetDate.m : Int) - 1)
        if curKey < tgtKey then navegarParaMes E targetDate fuel (E.wait (E.next s))
        else navegarParaMes E targetDate fuel (E.wait (E.prev s))

/- ===== Auxiliary definitions for the claim statements ===== -/

/-- A string in canonical zero-padded `DD/MM/YYYY` form (two digits, slash,
two digits, slash, four digits). -/
def isCanonicalBR (s : String) : Bool :=
  match s.toList with
  | [d1, d2, c1, m1, m2, c2, y1, y2, y3, y4] =>
    c1 = '/' && c2 = '/' && isDigitCh d1 && isDigitCh d2 && isDigitCh m1 &&
      isDigitCh m2 && isDigitCh y1 && isDigitCh y2 && isDigitCh y3 && isDigitCh y4
  | _ => false

/-- The canonical `YYYY-MM-DD` string of a date, written from the words of
the specification (zero-padded month and day, plain year), used to compare
the output of `brToIsoDateString` against the spec. -/
def isoCanonical (y : Int) (m d : Nat) : String :=
  String.mk (intChars y ++ '-' :: pad2ch m ++ '-' :: pad2ch d)

/-- A concrete single-state stepper page whose date label carries the
target date embedded in a longer text, used to refute the exact-equality
reading of the confirmation contract for the stepper strategy. -/
def cexStepperEnv : StepperEnv Unit where
  fechar := id
  hasPrevBtn := fun _ => true
  hasNextBtn := fun _ => true
  ler := fun _ => "05/03/2026 - quarta-feira"
  clickPrev := fun _ => (true, ())
  clickNext := fun _ => (true, ())
  wait := id

/-- A concrete single-state stepper page with no directional controls at
all but whose label already shows the target date, used to refute the
unconditional entry-success reading of the stepper navigator. -/
def cexNoButtonsEnv : StepperEnv Unit where
  fechar := id
  hasPrevBtn := fun _ => false
  hasNextBtn := fun _ => false
  ler := fun _ => "05/03/2026"
  clickPrev := fun _ => (false, ())
  clickNext := fun _ => (false, ())
  wait := id

/-- A concrete calendar page over integer states: the state is the header
key itself, the header always parses to (year = s / 12, month index =
s mod 12), and the arrows move the key by one. -/
def keyCalNavEnv : CalNavEnv Int where
  approx := fun s => some ⟨s / 12, (s % 12).toNat + 1, 1⟩
  next := fun s => s + 1
  prev := fun s => s - 1
  wait := id

/- ===== Lemmas: digit strings and number parsing ===== -/

theorem digitChar_val {r : Nat} (h : r < 10) :
    digitVal (Nat.digitChar r) = r ∧ isDigitCh (Nat.digitChar r) = true := by
  interval_cases r <;> exact ⟨by decide, by decide⟩

theorem natDigitsAux_spec :
    ∀ fuel n, n < fuel →
      natDigitsAux fuel n ≠ [] ∧ (natDigitsAux fuel n).all isDigitCh = true ∧
        (natDigitsAux fuel n).foldl (fun a c => a * 10 + digitVal c) 0 = n := by
  intro fuel
  induction fuel with
  | zero => intro n h; omega
  | succ f ih =>
    intro n h
    by_cases h10 : n < 10
    · simp only [natDigitsAux, if_pos h10]
      refine ⟨by simp, ?_, ?_⟩
      · simp [List.all_cons, (digitChar_val h10).2]
      · simpa using (digitChar_val h10).1
    · have hdiv : n / 10 < f := by omega
      obtain ⟨h1, h2, h3⟩ := ih (n / 10) hdiv
      simp only [natDigitsAux, if_neg h10]
      refine ⟨by simp, ?_, ?_⟩
      · simp [List.all_append, h2, List.all_cons, (digitChar_val (Nat.mod_lt n (by omega))).2]
      · rw [List.foldl_append, h3]
        simp only [List.foldl_cons, List.foldl_nil,
          (digitChar_val (Nat.mod_lt n (by omega))).1]
        omega

theorem natDigits_spec (n : Nat) :
    natDigits n ≠ [] ∧ (natDigits n).all isDigitCh = true ∧
      (natDigits n).foldl (fun a c => a * 10 + digitVal c) 0 = n :=
  natDigitsAux_spec (n + 1) n (by omega)

theorem jsNumberCore_natDigits (n : Nat) : jsNumberCore (natDigits n) = some n := by
  obtain ⟨h1, h2, h3⟩ := natDigits_spec n
  simp [jsNumberCore, h1, h2, h3]

theorem pad2ch_all_digit (n : Nat) : (pad2ch n).all isDigitCh = true := by
  unfold pad2ch
  split
  · rw [List.all_cons, (natDigits_spec n).2.1, Bool.and_true]
    decide
  · exact (natDigits_spec n).2.1

theorem jsNumberCore_pad2ch (n : Nat) : jsNumberCore (pad2ch n) = some n := by
  unfold pad2ch
  split
  · obtain ⟨h1, h2, h3⟩ := natDigits_spec n
    have hne : ('0' :: natDigits n) ≠ [] := by simp
    have hall : ('0' :: natDigits n).all isDigitCh = true := by
      rw [List.all_cons, h2, Bool.and_true]; decide
    unfold jsNumberCore
    rw [if_neg hne, if_pos hall]
    rw [List.foldl_cons]
    have hz : 0 * 10 + digitVal '0' = 0 := by decide
    rw [hz, h3]
  · exact jsNumberCore_natDigits n

theorem all_digit_head_ne_minus {l : List Char} (h : l.all isDigitCh = true) :
    ∀ c r, l = c :: r → c ≠ '-' := by
  intro c r hl hc
  subst hl; subst hc
  simp [List.all_cons] at h
  exact absurd h.1 (by decide)

theorem jsNumber_of_digits {l : List Char} (hl : l ≠ []) (h : l.all isDigitCh = true) :
    jsNumber l = (jsNumberCore l).map (fun n => (n : Int)) := by
  match l, hl with
  | c :: r, _ =>
    have hc : c ≠ '-' := all_digit_head_ne_minus h c r rfl
    show (if c = '-' then _ else (jsNumberCore (c :: r)).map (fun n => (n : Int))) = _
    rw [if_neg hc]

theorem jsNumber_pad2ch (n : Nat) : jsNumber (pad2ch n) = some (n : Int) := by
  have hne : pad2ch n ≠ [] := by
    unfold pad2ch
    split
    · simp
    · exact (natDigits_spec n).1
  rw [jsNumber_of_digits hne (pad2ch_all_digit n), jsNumberCore_pad2ch]
  rfl

theorem jsNumber_intChars {z : Int} (h : 0 ≤ z) : jsNumber (intChars z) = some z := by
  have hz : intChars z = natDigits z.toNat := by
    unfold intChars
    rw [if_neg (by omega)]
  rw [hz, jsNumber_of_digits (natDigits_spec z.toNat).1 (natDigits_spec z.toNat).2.1,
    jsNumberCore_natDigits]
  simp [Int.toNat_of_nonneg h]

/- ===== Lemmas: splitting on '/' ===== -/

theorem splitSlash_no_slash {l : List Char} (h : '/' ∉ l) : splitSlash l = [l] := by
  induction l with
  | nil => rfl
  | cons c r ih =>
    have hc : c ≠ '/' := fun hc => h (hc ▸ List.mem_cons_self c r)
    have hr : '/' ∉ r := fun hr => h (List.mem_cons_of_mem c hr)
    simp [splitSlash, hc, ih hr]

theorem splitSlash_append {a : List Char} (r : List Char) (h : '/' ∉ a) :
    splitSlash (a ++ '/' :: r) = a :: splitSlash r := by
  induction a with
  | nil => simp [splitSlash]
  | cons c t ih =>
    have hc : c ≠ '/' := fun hc => h (hc ▸ List.mem_cons_self c t)
    have ht : '/' ∉ t := fun ht => h (List.mem_cons_of_mem c ht)
    simp [splitSlash, hc, ih ht]

theorem splitSlash_three {a b c : List Char} (ha : '/' ∉ a) (hb : '/' ∉ b)
    (hc : '/' ∉ c) : splitSlash (a ++ '/' :: (b ++ '/' :: c)) = [a, b, c] := by
  rw [splitSlash_append _ ha, splitSlash_append _ hb, splitSlash_no_slash hc]

theorem all_digit_no_slash {l : List Char} (h : l.all isDigitCh = true) : '/' ∉ l := by
  intro hm
  rw [List.all_eq_true] at h
  exact absurd (h _ hm) (by decide)


/- ===== Lemmas: calendar arithmetic ===== -/

theorem MyDate_y (y : Int) (m d : Nat) : (⟨y, m, d⟩ : MyDate).y = y := rfl

theorem MyDate_m (y : Int) (m d : Nat) : (⟨y, m, d⟩ : MyDate).m = m := rfl

theorem MyDate_d (y : Int) (m d : Nat) : (⟨y, m, d⟩ : MyDate).d = d := rfl

theorem ValidDate_mk {y : Int} {m d : Nat} :
    ValidDate ⟨y, m, d⟩ ↔ 1 ≤ m ∧ m ≤ 12 ∧ 1 ≤ d ∧ d ≤ daysInMonth y m := Iff.rfl

theorem rata_mk (y : Int) (m d : Nat) :
    rata ⟨y, m, d⟩ = daysBeforeYear y + (monthsDays y (m - 1) : Int) + ((d : Int) - 1) :=
  rfl

theorem ediv_as_div (a b : Int) : a.ediv b = a / b := rfl

theorem emod_as_mod (a b : Int) : a.emod b = a % b := rfl

theorem isLeap_iff (y : Int) :
    isLeap y = true ↔ ((y % 4 = 0 ∧ ¬y % 100 = 0) ∨ y % 400 = 0) := by
  unfold isLeap
  rw [Bool.or_eq_true, Bool.and_eq_true]
  simp [emod_as_mod]

theorem daysInMonth_bounds {y : Int} {m : Nat} (h1 : 1 ≤ m) (h2 : m ≤ 12) :
    28 ≤ daysInMonth y m ∧ daysInMonth y m ≤ 31 := by
  interval_cases m <;> simp only [daysInMonth] <;>
    first
    | (split_ifs <;> omega)
    | omega

theorem daysBeforeYear_succ (y : Int) :
    daysBeforeYear (y + 1) = daysBeforeYear y + (if isLeap y then 366 else 365) := by
  unfold daysBeforeYear
  have h4 : (y + 1 - 1) = y := by ring
  rw [h4]
  simp only [ediv_as_div]
  by_cases hl : isLeap y = true
  · rw [if_pos hl]
    have h := (isLeap_iff y).mp hl
    rcases h with ⟨a, b⟩ | c <;> omega
  · rw [if_neg hl]
    have h := (isLeap_iff y).not.mp hl
    push_neg at h
    obtain ⟨himp, h400⟩ := h
    by_cases c4 : y % 4 = 0
    · have c100 := himp c4
      omega
    · omega

theorem monthsDays_step {y : Int} {m : Nat} (h1 : 1 ≤ m) :
    monthsDays y m = monthsDays y (m - 1) + daysInMonth y m := by
  have e1 : m = (m - 1) + 1 := by omega
  rw [e1, monthsDays]
  congr 2

theorem valid_succDay {dt : MyDate} (h : ValidDate dt) : ValidDate (succDay dt) := by
  obtain ⟨y, m, d⟩ := dt
  rw [ValidDate_mk] at h
  obtain ⟨h1, h2, h3, h4⟩ := h
  unfold succDay
  simp only [MyDate_y, MyDate_m, MyDate_d]
  split_ifs with ha hb
  · rw [ValidDate_mk]
    exact ⟨h1, h2, by omega, by omega⟩
  · rw [ValidDate_mk]
    have := @daysInMonth_bounds y (m + 1) (by omega) (by omega)
    exact ⟨by omega, by omega, by omega, by omega⟩
  · rw [ValidDate_mk]
    refine ⟨by omega, by omega, by omega, ?_⟩
    simp [daysInMonth]

theorem rata_succDay {dt : MyDate} (h : ValidDate dt) :
    rata (succDay dt) = rata dt + 1 := by
  obtain ⟨y, m, d⟩ := dt
  rw [ValidDate_mk] at h
  obtain ⟨h1, h2, h3, h4⟩ := h
  unfold succDay
  simp only [MyDate_y, MyDate_m, MyDate_d]
  split_ifs with ha hb
  · rw [rata_mk, rata_mk]
    omega
  · -- last day of a month other than December
    rw [rata_mk, rata_mk]
    have hmd : monthsDays y (m + 1 - 1) = monthsDays y (m - 1) + daysInMonth y m := by
      have e1 : m + 1 - 1 = m := by omega
      rw [e1, monthsDays_step h1]
    rw [hmd]
    omega
  · -- December 31st
    have hm12 : m = 12 := by omega
    subst hm12
    have hdim : daysInMonth y 12 = 31 := by simp [daysInMonth]
    have hd : d = 31 := by omega
    subst hd
    rw [rata_mk, rata_mk]
    rw [daysBeforeYear_succ]
    have h11 : (monthsDays y 11 : Int) = (if isLeap y then 335 else 334) := by
      simp only [monthsDays, daysInMonth]
      split_ifs <;> push_cast <;> omega
    have e1 : (12 : Nat) - 1 = 11 := by omega
    have e2 : (1 : Nat) - 1 = 0 := by omega
    rw [e1, e2, h11]
    have h0 : (monthsDays (y + 1) 0 : Int) = 0 := by simp [monthsDays]
    rw [h0]
    split_ifs <;> omega

theorem valid_addDays {dt : MyDate} (h : ValidDate dt) (k : Nat) :
    ValidDate (addDays dt k) := by
  induction k with
  | zero => exact h
  | succ n ih => exact valid_succDay ih

theorem rata_addDays {dt : MyDate} (h : ValidDate dt) (k : Nat) :
    rata (addDays dt k) = rata dt + k := by
  induction k with
  | zero => simp [addDays]
  | succ n ih =>
    show rata (succDay (addDays dt n)) = _
    rw [rata_succDay (valid_addDays h n), ih]
    push_cast
    ring

theorem y_le_succDay (dt : MyDate) : dt.y ≤ (succDay dt).y := by
  obtain ⟨y, m, d⟩ := dt
  unfold succDay
  simp only [MyDate_y, MyDate_m, MyDate_d]
  split_ifs <;> simp only [MyDate_y] <;> omega

theorem y_le_addDays (dt : MyDate) (k : Nat) : dt.y ≤ (addDays dt k).y := by
  induction k with
  | zero => exact le_rfl
  | succ n ih => exact le_trans ih (y_le_succDay (addDays dt n))

theorem addDays_add (dt : MyDate) (a b : Nat) :
    addDays dt (a + b) = addDays (addDays dt a) b := by
  induction b with
  | zero => rfl
  | succ n ih =>
    show addDays dt (a + n + 1) = succDay (addDays (addDays dt a) n)
    rw [← ih]
    rfl

theorem addDays_within {y : Int} {m k : Nat} (hk : k < daysInMonth y m) :
    addDays ⟨y, m, 1⟩ k = ⟨y, m, k + 1⟩ := by
  induction k with
  | zero => rfl
  | succ n ih =>
    show succDay (addDays ⟨y, m, 1⟩ n) = _
    rw [ih (by omega)]
    unfold succDay
    simp only [MyDate_y, MyDate_m, MyDate_d]
    rw [if_pos (by omega)]

theorem jsMkDate_valid_eq {y : Int} {m d : Nat} (h : ValidDate ⟨y, m, d⟩) :
    jsMkDate y ((m : Int) - 1) d = ⟨y, m, d⟩ := by
  rw [ValidDate_mk] at h
  obtain ⟨h1, h2, h3, h4⟩ := h
  unfold jsMkDate
  have e1 : ((m : Int) - 1).ediv 12 = 0 := by rw [ediv_as_div]; omega
  have e2 : (((m : Int) - 1).emod 12).toNat + 1 = m := by rw [emod_as_mod]; omega
  simp only [e1, e2, add_zero]
  rw [if_pos (by exact_mod_cast Nat.one_le_cast.mpr h3)]
  have e3 : ((d : Nat) : Int).toNat = d := by omega
  have e4 : (((d : Nat) : Int) - 1).toNat = d - 1 := by omega
  rw [e4, addDays_within (by omega)]
  have e5 : d - 1 + 1 = d := by omega
  rw [e5]

theorem jsSetDate_add {dt : MyDate} (h : ValidDate dt) (k : Nat) :
    jsSetDate dt ((dt.d : Int) + k) = addDays dt k := by
  obtain ⟨y, m, d⟩ := dt
  rw [ValidDate_mk] at h
  obtain ⟨h1, h2, h3, h4⟩ := h
  unfold jsSetDate jsMkDate
  simp only [MyDate_y, MyDate_m, MyDate_d]
  have e1 : ((m : Int) - 1).ediv 12 = 0 := by rw [ediv_as_div]; omega
  have e2 : (((m : Int) - 1).emod 12).toNat + 1 = m := by rw [emod_as_mod]; omega
  simp only [e1, e2, add_zero]
  rw [if_pos (by omega)]
  have e4 : (((d : Nat) : Int) + (k : Int) - 1).toNat = (d - 1) + k := by omega
  rw [e4, addDays_add, addDays_within (by omega)]
  have e5 : d - 1 + 1 = d := by omega
  rw [e5]

theorem jsMkDate_valid {y mIdx d : Int} (hd : 1 ≤ d) : ValidDate (jsMkDate y mIdx d) := by
  unfold jsMkDate
  rw [if_pos hd]
  have hm2a : 0 ≤ mIdx.emod 12 := by rw [emod_as_mod]; omega
  have hm2b : mIdx.emod 12 < 12 := by rw [emod_as_mod]; omega
  apply valid_addDays
  rw [ValidDate_mk]
  refine ⟨by omega, by omega, by omega, ?_⟩
  have := @daysInMonth_bounds (y + mIdx.ediv 12) ((mIdx.emod 12).toNat + 1) (by omega) (by omega)
  omega

theorem jsMkDate_y_ge {y mIdx d : Int} (hm : 0 ≤ mIdx) (hd : 1 ≤ d) :
    y ≤ (jsMkDate y mIdx d).y := by
  unfold jsMkDate
  rw [if_pos hd]
  have h1 : 0 ≤ mIdx.ediv 12 := by rw [ediv_as_div]; omega
  calc y ≤ y + mIdx.ediv 12 := by omega
    _ = (⟨y + mIdx.ediv 12, (mIdx.emod 12).toNat + 1, 1⟩ : MyDate).y := rfl
    _ ≤ _ := y_le_addDays _ _

/- ===== Lemmas: parse/format round trip ===== -/

theorem formatBR_toList (dt : MyDate) :
    (formatBR dt).toList = pad2ch dt.d ++ '/' :: (pad2ch dt.m ++ '/' :: intChars dt.y) := by
  show pad2ch dt.d ++ ('/' :: pad2ch dt.m) ++ ('/' :: intChars dt.y) = _
  rw [List.append_assoc, List.cons_append]

theorem pad2ch_no_slash (n : Nat) : '/' ∉ pad2ch n :=
  all_digit_no_slash (pad2ch_all_digit n)

theorem intChars_no_slash {z : Int} (h : 0 ≤ z) : '/' ∉ intChars z := by
  have hz : intChars z = natDigits z.toNat := by
    unfold intChars
    rw [if_neg (by omega)]
  rw [hz]
  exact all_digit_no_slash (natDigits_spec z.toNat).2.1

theorem parse_format {dt : MyDate} (h : ValidDate dt) (hy : 0 ≤ dt.y) :
    parseBRDate (formatBR dt) = some dt := by
  unfold parseBRDate
  rw [formatBR_toList,
    splitSlash_three (pad2ch_no_slash dt.d) (pad2ch_no_slash dt.m) (intChars_no_slash hy)]
  simp only [jsNumber_pad2ch, jsNumber_intChars hy]
  have e1 : ((dt.m : Int) - 1) = ((dt.m : Int) - 1) := rfl
  show some (jsMkDate dt.y ((dt.m : Int) - 1) (dt.d : Int)) = some dt
  obtain ⟨y, m, d⟩ := dt
  rw [jsMkDate_valid_eq h]

/- ===== Lemmas: the date range generator ===== -/

theorem getDay_bounds (dt : MyDate) : 0 ≤ getDay dt ∧ getDay dt < 7 := by
  unfold getDay
  rw [emod_as_mod]
  omega

theorem rataS_parse {s : String} {dt : MyDate} (h : parseBRDate s = some dt) :
    rataS s = rata dt := by
  unfold rataS
  rw [h]

theorem isWeekday_format {dt : MyDate} (hv : ValidDate dt) (hy : 0 ≤ dt.y)
    (hw : isWeekdayBR (formatBR dt) = true) : 1 ≤ getDay dt ∧ getDay dt ≤ 5 := by
  unfold isWeekdayBR at hw
  rw [parse_format hv hy] at hw
  simp only [Bool.and_eq_true, decide_eq_true_eq] at hw
  have := getDay_bounds dt
  omega

theorem gerarLoop_succ (fim : MyDate) (f : Nat) (cur : MyDate) :
    gerarLoop fim (f + 1) cur =
      if rata cur ≤ rata fim then
        (if isWeekdayBR (formatBR cur) then [formatBR cur] else []) ++
          gerarLoop fim f (succDay cur)
      else [] := rfl

theorem gerarLoop_spec (fim : MyDate) :
    ∀ fuel cur, ValidDate cur → 0 ≤ cur.y →
      (∀ s ∈ gerarLoop fim fuel cur, ∃ dt, ValidDate dt ∧ 0 ≤ dt.y ∧
        parseBRDate s = some dt ∧ rata cur ≤ rata dt ∧ rata dt ≤ rata fim ∧
        1 ≤ getDay dt ∧ getDay dt ≤ 5) ∧
      List.Pairwise (fun a b => rataS a < rataS b) (gerarLoop fim fuel cur) := by
  intro fuel
  induction fuel with
  | zero =>
    intro cur hv hy
    exact ⟨by intro s hs; simp [gerarLoop] at hs, by simp [gerarLoop]⟩
  | succ f ih =>
    intro cur hv hy
    rw [gerarLoop_succ]
    by_cases hle : rata cur ≤ rata fim
    · rw [if_pos hle]
      have hv1 : ValidDate (succDay cur) := valid_succDay hv
      have hy1 : 0 ≤ (succDay cur).y := le_trans hy (y_le_succDay cur)
      obtain ⟨ihm, ihp⟩ := ih (succDay cur) hv1 hy1
      have hr1 : rata (succDay cur) = rata cur + 1 := rata_succDay hv
      by_cases hwk : isWeekdayBR (formatBR cur) = true
      · rw [if_pos hwk]
        constructor
        · intro s hs
          rcases List.mem_append.mp hs with hs | hs
          · rcases List.mem_singleton.mp hs with rfl
            exact ⟨cur, hv, hy, parse_format hv hy, le_refl _, hle,
              isWeekday_format hv hy hwk⟩
          · obtain ⟨dt, a1, a2, a3, a4, a5, a6, a7⟩ := ihm s hs
            exact ⟨dt, a1, a2, a3, by omega, a5, a6, a7⟩
        · show List.Pairwise _ (formatBR cur :: gerarLoop fim f (succDay cur))
          rw [List.pairwise_cons]
          refine ⟨?_, ihp⟩
          intro b hb
          obtain ⟨dt, a1, a2, a3, a4, a5, a6, a7⟩ := ihm b hb
          rw [rataS_parse (parse_format hv hy), rataS_parse a3]
          omega
      · rw [if_neg hwk]
        rw [List.nil_append]
        refine ⟨?_, ihp⟩
        intro s hs
        obtain ⟨dt, a1, a2, a3, a4, a5, a6, a7⟩ := ihm s hs
        exact ⟨dt, a1, a2, a3, by omega, a5, a6, a7⟩
    · rw [if_neg hle]
      exact ⟨by intro s hs; simp at hs, by simp⟩

theorem gerarDatas_unfold (hoje : MyDate) :
    gerarDatasProximosDoisMeses hoje =
      gerarLoop (jsSetDate (jsSetMonth hoje ((hoje.m : Int) - 1 + 2))
          (((jsSetMonth hoje ((hoje.m : Int) - 1 + 2)).d : Int) + 10))
        ((rata (jsSetDate (jsSetMonth hoje ((hoje.m : Int) - 1 + 2))
            (((jsSetMonth hoje ((hoje.m : Int) - 1 + 2)).d : Int) + 10)) -
          rata (jsSetDate hoje ((hoje.d : Int) + 7))).toNat + 1)
        (jsSetDate hoje ((hoje.d : Int) + 7)) := rfl

/-- C2 (amended: the bounds are inclusive, not strict — see the
counterexample below).  For every valid today, every string produced by
`gerarDatasProximosDoisMeses` parses back to a valid date lying between
today + 7 days and (today + 2 months) + 10 days, inclusive at both ends,
whose weekday is Monday (1) through Friday (5); and the returned sequence
is strictly ascending by denoted date, hence duplicate-free. -/
theorem C2_gerarDatas_range_weekday_sorted (hoje : MyDate) (hv : ValidDate hoje)
    (hy : 0 ≤ hoje.y) :
    (∀ s ∈ gerarDatasProximosDoisMeses hoje, ∃ dt, ValidDate dt ∧
      parseBRDate s = some dt ∧
      rata (jsSetDate hoje ((hoje.d : Int) + 7)) ≤ rata dt ∧
      rata dt ≤ rata (jsSetDate (jsSetMonth hoje ((hoje.m : Int) - 1 + 2))
        (((jsSetMonth hoje ((hoje.m : Int) - 1 + 2)).d : Int) + 10)) ∧
      1 ≤ getDay dt ∧ getDay dt ≤ 5) ∧
    List.Pairwise (fun a b => rataS a < rataS b) (gerarDatasProximosDoisMeses hoje) ∧
    (gerarDatasProximosDoisMeses hoje).Nodup := by
  have hc7 : jsSetDate hoje ((hoje.d : Int) + 7) = addDays hoje 7 := by
    have e : ((hoje.d : Int) + 7) = ((hoje.d : Int) + ((7 : Nat) : Int)) := by norm_num
    rw [e, jsSetDate_add hv]
  have hvc : ValidDate (jsSetDate hoje ((hoje.d : Int) + 7)) := by
    rw [hc7]; exact valid_addDays hv 7
  have hyc : 0 ≤ (jsSetDate hoje ((hoje.d : Int) + 7)).y := by
    rw [hc7]; exact le_trans hy (y_le_addDays hoje 7)
  rw [gerarDatas_unfold]
  obtain ⟨hm, hp⟩ := gerarLoop_spec _ _ _ hvc hyc
  refine ⟨?_, hp, ?_⟩
  · intro s hs
    obtain ⟨dt, a1, _, a3, a4, a5, a6, a7⟩ := hm s hs
    exact ⟨dt, a1, a3, a4, a5, a6, a7⟩
  · exact hp.imp (fun hlt he => absurd (he ▸ hlt) (lt_irrefl _))

/-- Witness for C2 at today = January 1st 2024. -/
theorem C2_witness :
    (∀ s ∈ gerarDatasProximosDoisMeses ⟨2024, 1, 1⟩, ∃ dt, ValidDate dt ∧
      parseBRDate s = some dt ∧
      rata (jsSetDate ⟨2024, 1, 1⟩ (((⟨2024, 1, 1⟩ : MyDate).d : Int) + 7)) ≤ rata dt ∧
      rata dt ≤ rata (jsSetDate (jsSetMonth ⟨2024, 1, 1⟩ (((⟨2024, 1, 1⟩ : MyDate).m : Int) - 1 + 2))
        (((jsSetMonth ⟨2024, 1, 1⟩ (((⟨2024, 1, 1⟩ : MyDate).m : Int) - 1 + 2)).d : Int) + 10)) ∧
      1 ≤ getDay dt ∧ getDay dt ≤ 5) ∧
    List.Pairwise (fun a b => rataS a < rataS b) (gerarDatasProximosDoisMeses ⟨2024, 1, 1⟩) ∧
    (gerarDatasProximosDoisMeses ⟨2024, 1, 1⟩).Nodup :=
  C2_gerarDatas_range_weekday_sorted ⟨2024, 1, 1⟩ (by decide) (by decide)

/-- Counterexample to C2 as stated: with today = January 1st 2024 the first
generated string is "08/01/2024", which denotes exactly today + 7 days — a
Monday — so the denoted date does not fall strictly after today + 7 days. -/
theorem C2_counterexample :
    ("08/01/2024" ∈ gerarDatasProximosDoisMeses ⟨2024, 1, 1⟩) ∧
    ¬(rata (jsSetDate ⟨2024, 1, 1⟩ (((⟨2024, 1, 1⟩ : MyDate).d : Int) + 7)) <
      rataS ("08/01/2024")) := by
  constructor
  · decide
  · decide

/- ===== Lemmas: digit string lengths and the ISO round trip ===== -/

theorem natDigitsAux_irrel :
    ∀ f1 f2 n, n < f1 → n < f2 → natDigitsAux f1 n = natDigitsAux f2 n := by
  intro f1
  induction f1 with
  | zero => intro f2 n h1 _; omega
  | succ f ih =>
    intro f2 n h1 h2
    match f2, h2 with
    | g + 1, _ =>
      show natDigitsAux (f + 1) n = natDigitsAux (g + 1) n
      by_cases h10 : n < 10
      · simp only [natDigitsAux, if_pos h10]
      · have hlt : n / 10 < n := Nat.div_lt_self (by omega) (by norm_num)
        simp only [natDigitsAux, if_neg h10]
        rw [ih g (n / 10) (by omega) (by omega)]

theorem natDigits_step {n : Nat} (h : 10 ≤ n) :
    natDigits n = natDigits (n / 10) ++ [Nat.digitChar (n % 10)] := by
  have hlt : n / 10 < n := Nat.div_lt_self (by omega) (by norm_num)
  show natDigitsAux (n + 1) n = _
  simp only [natDigitsAux, if_neg (by omega : ¬n < 10)]
  rw [natDigitsAux_irrel n (n / 10 + 1) (n / 10) (by omega) (by omega)]
  rfl

theorem natDigits_single {n : Nat} (h : n < 10) : natDigits n = [Nat.digitChar n] := by
  show natDigitsAux (n + 1) n = _
  simp only [natDigitsAux, if_pos h]

theorem natDigits_length1 {n : Nat} (h : n < 10) : (natDigits n).length = 1 := by
  rw [natDigits_single h]
  rfl

theorem natDigits_length2 {n : Nat} (h1 : 10 ≤ n) (h2 : n < 100) :
    (natDigits n).length = 2 := by
  rw [natDigits_step h1, List.length_append, natDigits_length1 (by omega)]
  rfl

theorem natDigits_length3 {n : Nat} (h1 : 100 ≤ n) (h2 : n < 1000) :
    (natDigits n).length = 3 := by
  rw [natDigits_step (by omega), List.length_append,
    natDigits_length2 (by omega) (by omega)]
  rfl

theorem natDigits_length4 {n : Nat} (h1 : 1000 ≤ n) (h2 : n < 10000) :
    (natDigits n).length = 4 := by
  rw [natDigits_step (by omega), List.length_append,
    natDigits_length3 (by omega) (by omega)]
  rfl

theorem pad2ch_two {n : Nat} (h : n < 100) :
    ∃ a b, pad2ch n = [a, b] ∧ isDigitCh a = true ∧ isDigitCh b = true := by
  have hlen : (pad2ch n).length = 2 := by
    unfold pad2ch
    split_ifs with h10
    · rw [List.length_cons, natDigits_length1 h10]
    · exact natDigits_length2 (by omega) h
  have hall := pad2ch_all_digit n
  obtain ⟨a, b, hab⟩ := List.length_eq_two.mp hlen
  rw [hab] at hall
  simp only [List.all_cons, List.all_nil, Bool.and_true, Bool.and_eq_true] at hall
  exact ⟨a, b, hab, hall.1, hall.2⟩

theorem list_of_length_four {α : Type} {l : List α} (h : l.length = 4) :
    ∃ a b c d, l = [a, b, c, d] := by
  match l, h with
  | [a, b, c, d], _ => exact ⟨a, b, c, d, rfl⟩

theorem intChars_four {y : Int} (h1 : 1000 ≤ y) (h2 : y ≤ 9999) :
    ∃ a b c d, intChars y = [a, b, c, d] ∧ isDigitCh a = true ∧ isDigitCh b = true ∧
      isDigitCh c = true ∧ isDigitCh d = true := by
  have hz : intChars y = natDigits y.toNat := by
    unfold intChars
    rw [if_neg (by omega)]
  have hlen : (natDigits y.toNat).length = 4 := natDigits_length4 (by omega) (by omega)
  have hall := (natDigits_spec y.toNat).2.1
  obtain ⟨a, b, c, d, habcd⟩ := list_of_length_four hlen
  rw [habcd] at hall
  simp only [List.all_cons, List.all_nil, Bool.and_true, Bool.and_eq_true] at hall
  exact ⟨a, b, c, d, hz.trans habcd, hall.1, hall.2.1, hall.2.2.1, hall.2.2.2⟩

theorem isCanonicalBR_format {dt : MyDate} (hv : ValidDate dt) (h1 : 1000 ≤ dt.y)
    (h2 : dt.y ≤ 9999) : isCanonicalBR (formatBR dt) = true := by
  obtain ⟨hm1, hm2, hd1, hd2⟩ := hv
  have hdlt : dt.d < 100 := by
    have := @daysInMonth_bounds dt.y dt.m hm1 hm2
    omega
  obtain ⟨a1, a2, ha, ha1, ha2⟩ := pad2ch_two hdlt
  obtain ⟨b1, b2, hb, hb1, hb2⟩ := pad2ch_two (show dt.m < 100 by omega)
  obtain ⟨c1, c2, c3, c4, hc, hc1, hc2, hc3, hc4⟩ := intChars_four h1 h2
  have hlist : (formatBR dt).toList = [a1, a2, '/', b1, b2, '/', c1, c2, c3, c4] := by
    rw [formatBR_toList, ha, hb, hc]
    rfl
  unfold isCanonicalBR
  rw [hlist]
  simp [ha1, ha2, hb1, hb2, hc1, hc2, hc3, hc4]

/-- C10: for every zero-padded `DD/MM/YYYY` string denoting a valid
calendar date (equivalently, `formatBR` of any valid date with a four-digit
year), `parseBRDate` recovers exactly that date, and `brToIsoDateString`
renders it as the canonical `YYYY-MM-DD` string with the same year, month
and day; moreover `getTodayBR` always produces a string in canonical
zero-padded `DD/MM/YYYY` form. -/
theorem C10_parse_iso_roundtrip (y : Int) (m d : Nat) (hv : ValidDate ⟨y, m, d⟩)
    (h1 : 1000 ≤ y) (h2 : y ≤ 9999) :
    parseBRDate (formatBR ⟨y, m, d⟩) = some ⟨y, m, d⟩ ∧
    brToIsoDateString (formatBR ⟨y, m, d⟩) = isoCanonical y m d ∧
    isCanonicalBR (getTodayBR ⟨y, m, d⟩) = true := by
  have hp : parseBRDate (formatBR ⟨y, m, d⟩) = some ⟨y, m, d⟩ :=
    parse_format hv (by rw [MyDate_y]; omega)
  refine ⟨hp, ?_, isCanonicalBR_format hv h1 h2⟩
  unfold brToIsoDateString
  rw [hp]
  rfl

/-- Witness for C10 at the valid date 08/01/2024. -/
theorem C10_witness :
    parseBRDate (formatBR ⟨2024, 1, 8⟩) = some ⟨2024, 1, 8⟩ ∧
    brToIsoDateString (formatBR ⟨2024, 1, 8⟩) = isoCanonical 2024 1 8 ∧
    isCanonicalBR (getTodayBR ⟨2024, 1, 8⟩) = true :=
  C10_parse_iso_roundtrip 2024 1 8 (by decide) (by decide) (by decide)

/- ===== Lemmas: extraction mapper ===== -/

theorem mkProcesso_numero (item : PautaItem) :
    (mkProcesso item).numeroProcesso = getTextOf item.negritoEl := rfl

theorem mkProcesso_juiz (item : PautaItem) :
    (mkProcesso item).juiz =
      ((((item.descs.map normalizeText).filter (fun s => s ≠ ""))[0]?).getD "") := rfl

theorem mkProcesso_reclamante (item : PautaItem) :
    (mkProcesso item).reclamante =
      ((((item.descs.map normalizeText).filter (fun s => s ≠ ""))[1]?).getD "") := rfl

theorem mkProcesso_reclamada (item : PautaItem) :
    (mkProcesso item).reclamada =
      ((((item.descs.map normalizeText).filter (fun s => s ≠ ""))[2]?).getD "") := rfl

theorem find?_eq_head_filter (p : String → Bool) :
    ∀ l : List String, l.find? p = (l.filter p).head? := by
  intro l
  induction l with
  | nil => rfl
  | cons a t ih =>
    by_cases hpa : p a = true
    · rw [List.find?_cons_of_pos _ hpa, List.filter_cons_of_pos hpa]
      rfl
    · rw [List.find?_cons_of_neg _ (by simpa using hpa),
        List.filter_cons_of_neg (by simpa using hpa), ih]

/-- C5: extraction preserves cardinality — the mapper returns exactly one
record per observed list entry (in order), and an entry whose bold
identifier element is absent still yields a record whose `numeroProcesso`
is the empty string; no row is dropped. -/
theorem C5_extraction_cardinality (items : List PautaItem) :
    (extrairProcessosDaPauta items).length = items.length ∧
    (∀ i : Nat, (extrairProcessosDaPauta items)[i]? = (items[i]?).map mkProcesso) ∧
    (∀ item : PautaItem, item.negritoEl = none →
      (mkProcesso item).numeroProcesso = "") := by
  refine ⟨?_, ?_, ?_⟩
  · unfold extrairProcessosDaPauta
    split_ifs with h0
    · rw [List.length_eq_zero.mp h0]
      rfl
    · exact List.length_map _ _
  · intro i
    unfold extrairProcessosDaPauta
    split_ifs with h0
    · rw [List.length_eq_zero.mp h0]
      rfl
    · exact List.getElem?_map mkProcesso items i
  · intro item h
    rw [mkProcesso_numero, h]
    rfl

/-- Witness for C5 on a two-entry list whose second entry lacks the bold
identifier element. -/
theorem C5_witness :
    (extrairProcessosDaPauta
        [⟨some ("10:00"), some ("ok"), some ("123-45"), ["A", "B", "C"]⟩,
         ⟨none, none, none, []⟩]).length = 2 ∧
    (mkProcesso ⟨none, none, none, []⟩).numeroProcesso = "" := by
  have h := C5_extraction_cardinality
    [⟨some ("10:00"), some ("ok"), some ("123-45"), ["A", "B", "C"]⟩,
     ⟨none, none, none, []⟩]
  exact ⟨h.1, h.2.2 ⟨none, none, none, []⟩ rfl⟩

/-- C9: the mapper filters out empty normalized description sub-fields
before positional assignment — `juiz` is the first non-empty normalized
sub-field (stated via `find?`), `reclamante` and `reclamada` the second and
third entries of the non-empty-filtered list; an earlier sub-field that
normalizes (after non-breaking-space replacement and trimming) to the empty
string is skipped, shifting later sub-fields into its position; positions
past the available non-empty sub-fields give the empty string. -/
theorem C9_positional_shift (item : PautaItem) :
    ((mkProcesso item).juiz =
      (((item.descs.map normalizeText).find? (fun s => s ≠ "")).getD "")) ∧
    ((mkProcesso item).reclamante =
      ((((item.descs.map normalizeText).filter (fun s => s ≠ ""))[1]?).getD "")) ∧
    ((mkProcesso item).reclamada =
      ((((item.descs.map normalizeText).filter (fun s => s ≠ ""))[2]?).getD "")) ∧
    (∀ a rest, item.descs = a :: rest → normalizeText a = "" →
      ((mkProcesso item).juiz = (mkProcesso { item with descs := rest }).juiz ∧
       (mkProcesso item).reclamante =
         (mkProcesso { item with descs := rest }).reclamante ∧
       (mkProcesso item).reclamada =
         (mkProcesso { item with descs := rest }).reclamada)) ∧
    (((item.descs.map normalizeText).filter (fun s => s ≠ "")).length ≤ 1 →
      (mkProcesso item).reclamante = "") ∧
    (((item.descs.map normalizeText).filter (fun s => s ≠ "")).length ≤ 2 →
      (mkProcesso item).reclamada = "") := by
  refine ⟨?_, mkProcesso_reclamante item, mkProcesso_reclamada item, ?_, ?_, ?_⟩
  · rw [mkProcesso_juiz, find?_eq_head_filter, List.head?_eq_getElem?]
  · intro a rest hd hn
    have hf : (item.descs.map normalizeText).filter (fun s => s ≠ "") =
        (rest.map normalizeText).filter (fun s => s ≠ "") := by
      rw [hd, List.map_cons, List.filter_cons_of_neg (by simp [hn])]
    refine ⟨?_, ?_, ?_⟩
    · rw [mkProcesso_juiz, mkProcesso_juiz, hf]
    · rw [mkProcesso_reclamante, mkProcesso_reclamante, hf]
    · rw [mkProcesso_reclamada, mkProcesso_reclamada, hf]
  · intro hlen
    rw [mkProcesso_reclamante, List.getElem?_eq_none hlen]
    rfl
  · intro hlen
    rw [mkProcesso_reclamada, List.getElem?_eq_none hlen]
    rfl

/-- Witness for C9: a description list whose first sub-field is a lone
non-breaking space normalizes to empty and is skipped, shifting "X" into
the judge position; with only two non-empty sub-fields the respondent
field is empty. -/
theorem C9_witness :
    ((mkProcesso ⟨none, none, none, [" ", "X", "", "Y"]⟩).juiz =
      (mkProcesso ⟨none, none, none, ["X", "", "Y"]⟩).juiz ∧
     (mkProcesso ⟨none, none, none, [" ", "X", "", "Y"]⟩).reclamante =
      (mkProcesso ⟨none, none, none, ["X", "", "Y"]⟩).reclamante ∧
     (mkProcesso ⟨none, none, none, [" ", "X", "", "Y"]⟩).reclamada =
      (mkProcesso ⟨none, none, none, ["X", "", "Y"]⟩).reclamada) ∧
    (mkProcesso ⟨none, none, none, [" ", "X", "", "Y"]⟩).reclamada = "" := by
  have h := C9_positional_shift ⟨none, none, none, [" ", "X", "", "Y"]⟩
  exact ⟨h.2.2.2.1 (" ") (["X", "", "Y"]) rfl (by decide),
    h.2.2.2.2.2 (by decide)⟩

/- ===== Lemmas: CSV sink ===== -/

theorem csvEscape_some (s : String) :
    csvEscape (some s) =
      if s.toList.any (fun c => c == ';' || c == '"' || c == '\n' || c == '\r') then
        String.mk ('"' :: replaceQuotes s.toList ++ ['"'])
      else s := rfl

theorem replaceQuotes_flatMap (l : List Char) :
    replaceQuotes l = l.flatMap (fun c => if c = '"' then ['"', '"'] else [c]) := by
  induction l with
  | nil => rfl
  | cons c r ih =>
    unfold replaceQuotes
    rw [List.flatMap_cons, ← ih]
    split_ifs with hc
    · rfl
    · rfl

/-- C8: the CSV sink writes a byte-order-mark-prefixed file with exactly one
header line plus one line per record, each record line holding the escaped
fields in the header's column order; `csvEscape` quotes (wrapping in double
quotes, doubling each inner double quote) exactly those values containing
the `;` delimiter, a double quote, or a newline/carriage return, passes
every other value through verbatim, and maps an absent value to the empty
string. -/
theorem C8_writeCsv_escape (headers : List String) (rows : List (String → Option String)) :
    ((writeCsv headers rows).toList.take 1 = ['﻿']) ∧
    (csvLines headers rows).length = 1 + rows.length ∧
    ((csvLines headers rows).head? =
      some (String.intercalate (";") (headers.map (fun h => csvEscape (some h))))) ∧
    (∀ i : Nat, (csvLines headers rows)[i + 1]? =
      (rows[i]?).map
        (fun row => String.intercalate (";") (headers.map (fun h => csvEscape (row h))))) ∧
    (∀ s : String,
      ((∃ c ∈ s.toList, c = ';' ∨ c = '"' ∨ c = '\n' ∨ c = '\r') →
        csvEscape (some s) =
          String.mk ('"' :: s.toList.flatMap (fun c => if c = '"' then ['"', '"'] else [c])
            ++ ['"'])) ∧
      (¬(∃ c ∈ s.toList, c = ';' ∨ c = '"' ∨ c = '\n' ∨ c = '\r') →
        csvEscape (some s) = s)) ∧
    csvEscape none = "" := by
  have hany : ∀ s : String,
      (s.toList.any (fun c => c == ';' || c == '"' || c == '\n' || c == '\r') = true) ↔
        (∃ c ∈ s.toList, c = ';' ∨ c = '"' ∨ c = '\n' ∨ c = '\r') := by
    intro s
    rw [List.any_eq_true]
    constructor
    · rintro ⟨c, hc, hp⟩
      refine ⟨c, hc, ?_⟩
      simp only [Bool.or_eq_true, beq_iff_eq] at hp
      tauto
    · rintro ⟨c, hc, hp⟩
      refine ⟨c, hc, ?_⟩
      simp only [Bool.or_eq_true, beq_iff_eq]
      tauto
  refine ⟨?_, ?_, rfl, ?_, ?_, rfl⟩
  · show (("﻿" ++ String.intercalate ("\n") (csvLines headers rows)).toList).take 1 = _
    rw [show ∀ a b : String, (a ++ b).toList = a.toList ++ b.toList from
      fun a b => String.data_append a b]
    rfl
  · unfold csvLines
    rw [List.length_cons, List.length_map]
    omega
  · intro i
    unfold csvLines
    rw [List.getElem?_cons_succ, List.getElem?_map]
  · intro s
    constructor
    · intro h
      rw [csvEscape_some, if_pos ((hany s).mpr h), replaceQuotes_flatMap]
    · intro h
      rw [csvEscape_some, if_neg (fun hc => h ((hany s).mp hc))]

/-- Witness for C8 on a one-row table with one quotable and one plain
field. -/
theorem C8_witness :
    (csvLines (["a", "b"]) [fun h => if h = "a" then some ("x;y") else some ("z")]).length
        = 1 + 1 ∧
    csvEscape (some ("x;y")) = String.mk
      ('"' :: ("x;y").toList.flatMap (fun c => if c = '"' then ['"', '"'] else [c])
        ++ ['"']) ∧
    csvEscape (some ("z")) = "z" := by
  have h := C8_writeCsv_escape (["a", "b"])
    [fun h => if h = "a" then some ("x;y") else some ("z")]
  refine ⟨h.2.1, ?_, ?_⟩
  · exact (h.2.2.2.2.1 ("x;y")).1 ⟨';', by decide, Or.inl rfl⟩
  · exact (h.2.2.2.2.1 ("z")).2 (by decide)

/- ===== Lemmas: retry envelope ===== -/

theorem attemptState_shift {σ ε α : Type} (op : σ → Except ε α × σ) (fechar wait : σ → σ)
    (s : σ) : ∀ k, attemptState op fechar wait s (k + 1) =
      attemptState op fechar wait (wait (fechar (op s).2)) k := by
  intro k
  induction k with
  | zero => rfl
  | succ n ih =>
    show wait (fechar (op (attemptState op fechar wait s (n + 1))).2) = _
    rw [ih]
    rfl

theorem retryOperation_ok {σ ε α : Type} (op : σ → Except ε α × σ) (fechar wait : σ → σ) :
    ∀ n s k a, k < n →
      (∀ j, j < k → ∃ e, (op (attemptState op fechar wait s j)).1 = Except.error e) →
      (op (attemptState op fechar wait s k)).1 = Except.ok a →
      retryOperation op fechar wait n s =
        some (Except.ok a, (op (attemptState op fechar wait s k)).2) := by
  intro n
  induction n with
  | zero => intro s k a hk; omega
  | succ n ih =>
    intro s k a hk hfail hok
    match k with
    | 0 =>
      cases hpair : op s with
      | mk r s1 =>
        show (match op s with
          | (Except.ok a, s1) => some (Except.ok a, s1)
          | (Except.error e, s1) =>
            if n = 0 then some (Except.error e, s1)
            else retryOperation op fechar wait n (wait (fechar s1))) = _
        rw [hpair]
        have hr : r = Except.ok a := by
          have h0 : (op (attemptState op fechar wait s 0)).1 = Except.ok a := hok
          show r = _
          rw [show attemptState op fechar wait s 0 = s from rfl, hpair] at h0
          exact h0
        subst hr
        have h2 : (op (attemptState op fechar wait s 0)).2 = s1 := by
          rw [show attemptState op fechar wait s 0 = s from rfl, hpair]
        rw [h2]
    | k' + 1 =>
      obtain ⟨e0, he0⟩ := hfail 0 (by omega)
      cases hpair : op s with
      | mk r s1 =>
        have hr : r = Except.error e0 := by
          have h0 := he0
          rw [show attemptState op fechar wait s 0 = s from rfl, hpair] at h0
          exact h0
        subst hr
        show (match op s with
          | (Except.ok a, s1) => some (Except.ok a, s1)
          | (Except.error e, s1) =>
            if n = 0 then some (Except.error e, s1)
            else retryOperation op fechar wait n (wait (fechar s1))) = _
        rw [hpair]
        show (if n = 0 then some (Except.error e0, s1)
          else retryOperation op fechar wait n (wait (fechar s1))) = _
        rw [if_neg (by omega)]
        have hshift : ∀ j, attemptState op fechar wait s (j + 1) =
            attemptState op fechar wait (wait (fechar s1)) j := by
          intro j
          rw [attemptState_shift, hpair]
        rw [show (op (attemptState op fechar wait s (k' + 1))).2 =
            (op (attemptState op fechar wait (wait (fechar s1)) k')).2 by rw [hshift]]
        apply ih (wait (fechar s1)) k' a (by omega)
        · intro j hj
          obtain ⟨e, he⟩ := hfail (j + 1) (by omega)
          exact ⟨e, by rw [← hshift]; exact he⟩
        · rw [← hshift]
          exact hok

theorem retryOperation_fail {σ ε α : Type} (op : σ → Except ε α × σ) (fechar wait : σ → σ) :
    ∀ n s (errf : Nat → ε), 1 ≤ n →
      (∀ j, j < n → (op (attemptState op fechar wait s j)).1 = Except.error (errf j)) →
      retryOperation op fechar wait n s =
        some (Except.error (errf (n - 1)),
          (op (attemptState op fechar wait s (n - 1))).2) := by
  intro n
  induction n with
  | zero => intro s errf h1; omega
  | succ n ih =>
    intro s errf _ hfail
    cases hpair : op s with
    | mk r s1 =>
      have hr : r = Except.error (errf 0) := by
        have h0 := hfail 0 (by omega)
        rw [show attemptState op fechar wait s 0 = s from rfl, hpair] at h0
        exact h0
      subst hr
      show (match op s with
        | (Except.ok a, s1) => some (Except.ok a, s1)
        | (Except.error e, s1) =>
          if n = 0 then some (Except.error e, s1)
          else retryOperation op fechar wait n (wait (fechar s1))) = _
      rw [hpair]
      show (if n = 0 then some (Except.error (errf 0), s1)
        else retryOperation op fechar wait n (wait (fechar s1))) = _
      have hshift : ∀ j, attemptState op fechar wait s (j + 1) =
          attemptState op fechar wait (wait (fechar s1)) j := by
        intro j
        rw [attemptState_shift, hpair]
      match n with
      | 0 =>
        rw [if_pos rfl]
        have h2 : (op (attemptState op fechar wait s 0)).2 = s1 := by
          rw [show attemptState op fechar wait s 0 = s from rfl, hpair]
        rw [show (0 : Nat) + 1 - 1 = 0 from rfl, h2]
      | n' + 1 =>
        rw [if_neg (by omega)]
        have := ih (wait (fechar s1)) (fun j => errf (j + 1)) (by omega)
          (by intro j hj; rw [← hshift]; exact hfail (j + 1) (by omega))
        rw [this]
        have e1 : n' + 1 - 1 = n' := by omega
        have e2 : n' + 1 + 1 - 1 = n' + 1 := by omega
        rw [e1, e2, hshift n']

theorem retryOperation_error_all_failed {σ ε α : Type} (op : σ → Except ε α × σ)
    (fechar wait : σ → σ) :
    ∀ n s e sf, retryOperation op fechar wait n s = some (Except.error e, sf) →
      ∀ j, j < n → ∃ e2, (op (attemptState op fechar wait s j)).1 = Except.error e2 := by
  intro n
  induction n with
  | zero => intro s e sf h; simp [retryOperation] at h
  | succ n ih =>
    intro s e sf h j hj
    cases hpair : op s with
    | mk r s1 =>
      rw [show retryOperation op fechar wait (n + 1) s = (match op s with
        | (Except.ok a, s1) => some (Except.ok a, s1)
        | (Except.error e, s1) =>
          if n = 0 then some (Except.error e, s1)
          else retryOperation op fechar wait n (wait (fechar s1))) from rfl, hpair] at h
      cases r with
      | ok a => simp at h
      | error e0 =>
        replace h : (if n = 0 then some (Except.error e0, s1)
            else retryOperation op fechar wait n (wait (fechar s1))) =
            some (Except.error e, sf) := h
        have hshift : ∀ j, attemptState op fechar wait s (j + 1) =
            attemptState op fechar wait (wait (fechar s1)) j := by
          intro j
          rw [attemptState_shift, hpair]
        match j with
        | 0 =>
          exact ⟨e0, by rw [show attemptState op fechar wait s 0 = s from rfl, hpair]⟩
        | j' + 1 =>
          rw [if_neg (by omega)] at h
          obtain ⟨e2, he2⟩ := ih (wait (fechar s1)) e sf h j' (by omega)
          exact ⟨e2, by rw [hshift]; exact he2⟩

/-- C7: the retry envelope returns the wrapped operation's result from the
first attempt that succeeds (every earlier attempt having failed);
each failed attempt with attempts remaining is followed by the overlay
guard and then the delay, which is exactly how `attemptState` builds the
state of the next attempt; after `maxRetries` consecutive failures it
re-raises the last attempt's failure; and an error result occurs only when
every attempt failed. -/
theorem C7_retryOperation_contract {σ ε α : Type} (op : σ → Except ε α × σ)
    (fechar wait : σ → σ) (n : Nat) (s : σ) :
    (∀ k a, k < n →
      (∀ j, j < k → ∃ e, (op (attemptState op fechar wait s j)).1 = Except.error e) →
      (op (attemptState op fechar wait s k)).1 = Except.ok a →
      retryOperation op fechar wait n s =
        some (Except.ok a, (op (attemptState op fechar wait s k)).2)) ∧
    (∀ errf : Nat → ε, 1 ≤ n →
      (∀ j, j < n → (op (attemptState op fechar wait s j)).1 = Except.error (errf j)) →
      retryOperation op fechar wait n s =
        some (Except.error (errf (n - 1)),
          (op (attemptState op fechar wait s (n - 1))).2)) ∧
    (∀ e sf, retryOperation op fechar wait n s = some (Except.error e, sf) →
      ∀ j, j < n → ∃ e2, (op (attemptState op fechar wait s j)).1 = Except.error e2) :=
  ⟨fun k a hk hfail hok => retryOperation_ok op fechar wait n s k a hk hfail hok,
   fun errf h1 hfail => retryOperation_fail op fechar wait n s errf h1 hfail,
   fun e sf h => retryOperation_error_all_failed op fechar wait n s e sf h⟩

/-- Witness for C7: an operation over `σ = Nat` that fails on the first
attempt and succeeds on the second; the envelope returns the second
attempt's result. -/
theorem C7_witness :
    retryOperation (fun s => if s = 0 then (Except.error 7, 1) else (Except.ok 42, s))
        (id) (id) 2 0 = some (Except.ok 42, 1) := by
  have h := C7_retryOperation_contract
    (fun s => if s = 0 then (Except.error 7, 1) else (Except.ok 42, s)) (id) (id) 2 0
  have := h.1 1 42 (by omega)
    (by
      intro j hj
      match j, hj with
      | 0, _ => exact ⟨7, rfl⟩)
    (by rfl)
  simpa using this

/- ===== Lemmas: stabilization detector ===== -/

theorem estabLoop_succ {σ : Type} (E : EstabEnv σ) (f : Nat) (last : Option Nat) (s : σ) :
    estabLoop E (f + 1) last s =
      if some (E.count s) = last then
        if E.count (E.w600 s) = E.count s then (E.w600 s, 1)
        else ((estabLoop E f (some (E.count s)) (E.w250 (E.w600 s))).1,
          (estabLoop E f (some (E.count s)) (E.w250 (E.w600 s))).2 + 1)
      else ((estabLoop E f (some (E.count s)) (E.w250 s)).1,
        (estabLoop E f (some (E.count s)) (E.w250 s)).2 + 1) := rfl

theorem estabLoop_iters_le {σ : Type} (E : EstabEnv σ) :
    ∀ f last s, (estabLoop E f last s).2 ≤ f := by
  intro f
  induction f with
  | zero => intro last s; exact le_rfl
  | succ f ih =>
    intro last s
    rw [estabLoop_succ]
    split_ifs with h1 h2
    · show 1 ≤ f + 1
      omega
    · show (estabLoop E f (some (E.count s)) (E.w250 (E.w600 s))).2 + 1 ≤ f + 1
      have := ih (some (E.count s)) (E.w250 (E.w600 s))
      omega
    · show (estabLoop E f (some (E.count s)) (E.w250 s)).2 + 1 ≤ f + 1
      have := ih (some (E.count s)) (E.w250 s)
      omega

/-- C3: the stabilization polling loop always returns within the
20-iteration ceiling (so a never-repeating count cannot stall the run),
and whenever at the start of an iteration the freshly-read count equals the
previous poll's count and the re-sample taken after the confirmation wait
still matches, the loop declares stability and returns at that very
iteration. -/
theorem C3_estabilizar_bounded {σ : Type} (E : EstabEnv σ) (s : σ) :
    ((esperarPautaEstabilizar E s).2 ≤ 20) ∧
    (∀ f last s0, 1 ≤ f → last = some (E.count s0) →
      E.count (E.w600 s0) = E.count s0 → estabLoop E f last s0 = (E.w600 s0, 1)) := by
  constructor
  · exact estabLoop_iters_le E 20 none _
  · intro f last s0 hf hlast hconf
    match f, hf with
    | f' + 1, _ =>
      rw [estabLoop_succ, if_pos hlast.symm, if_pos hconf]

/-- Witness for C3: a constant-count environment over the unit state; the
whole detector finishes in 2 of its 20 allowed iterations, and a loop entry
that already matches the previous count returns immediately. -/
theorem C3_witness :
    ((esperarPautaEstabilizar
        ⟨fun _ => false, fun _ => false, fun _ => false, id, id, id,
          fun _ => 5, id, id⟩ ()).2 ≤ 20) ∧
    estabLoop (⟨fun _ => false, fun _ => false, fun _ => false, id, id, id,
        fun _ => 5, id, id⟩ : EstabEnv Unit) 1 (some 5) () = ((), 1) := by
  have h := C3_estabilizar_bounded
    (⟨fun _ => false, fun _ => false, fun _ => false, id, id, id,
      fun _ => 5, id, id⟩ : EstabEnv Unit) ()
  exact ⟨h.1, h.2 1 (some 5) () (by omega) rfl rfl⟩

/- ===== Lemmas: linear stepper navigator ===== -/

theorem esperarTextoMudar_succ {σ : Type} (E : StepperEnv σ) (anterior : String)
    (f : Nat) (s : σ) :
    esperarTextoMudar E anterior (f + 1) s =
      if E.ler s ≠ "" ∧ E.ler s ≠ anterior then (E.ler s, s)
      else esperarTextoMudar E anterior f (E.wait s) := rfl

theorem esperarTextoMudar_fst {σ : Type} (E : StepperEnv σ) (anterior : String) :
    ∀ fuel s, (esperarTextoMudar E anterior fuel s).1 =
      E.ler (esperarTextoMudar E anterior fuel s).2 := by
  intro fuel
  induction fuel with
  | zero => intro s; rfl
  | succ f ih =>
    intro s
    rw [esperarTextoMudar_succ]
    split_ifs with h
    · rfl
    · exact ih (E.wait s)

theorem irAteLoop_succ {σ : Type} (E : StepperEnv σ) (alvo : String) (alvoT : Option Int)
    (hp : Bool) (f : Nat) (s : σ) :
    irAteLoop E alvo alvoT hp (f + 1) s =
      if E.ler s ≠ "" ∧ containsStr (E.ler s) alvo then (true, s, 0)
      else if (if escolherDirecao (E.ler s) alvoT hp = -1 then E.clickPrev s
          else E.clickNext s).1 = false then
        ((irAteLoop E alvo alvoT hp f
            (E.wait (if escolherDirecao (E.ler s) alvoT hp = -1 then E.clickPrev s
              else E.clickNext s).2)).1,
         (irAteLoop E alvo alvoT hp f
            (E.wait (if escolherDirecao (E.ler s) alvoT hp = -1 then E.clickPrev s
              else E.clickNext s).2)).2.1,
         (irAteLoop E alvo alvoT hp f
            (E.wait (if escolherDirecao (E.ler s) alvoT hp = -1 then E.clickPrev s
              else E.clickNext s).2)).2.2 + 1)
      else if (esperarTextoMudar E (E.ler s) TM_FUEL
            (if escolherDirecao (E.ler s) alvoT hp = -1 then E.clickPrev s
              else E.clickNext s).2).1 ≠ "" ∧
          containsStr (esperarTextoMudar E (E.ler s) TM_FUEL
            (if escolherDirecao (E.ler s) alvoT hp = -1 then E.clickPrev s
              else E.clickNext s).2).1 alvo then
        (true, (esperarTextoMudar E (E.ler s) TM_FUEL
          (if escolherDirecao (E.ler s) alvoT hp = -1 then E.clickPrev s
            else E.clickNext s).2).2, 1)
      else
        ((irAteLoop E alvo alvoT hp f
            (E.wait (esperarTextoMudar E (E.ler s) TM_FUEL
              (if escolherDirecao (E.ler s) alvoT hp = -1 then E.clickPrev s
                else E.clickNext s).2).2)).1,
         (irAteLoop E alvo alvoT hp f
            (E.wait (esperarTextoMudar E (E.ler s) TM_FUEL
              (if escolherDirecao (E.ler s) alvoT hp = -1 then E.clickPrev s
                else E.clickNext s).2).2)).2.1,
         (irAteLoop E alvo alvoT hp f
            (E.wait (esperarTextoMudar E (E.ler s) TM_FUEL
              (if escolherDirecao (E.ler s) alvoT hp = -1 then E.clickPrev s
                else E.clickNext s).2).2)).2.2 + 1) := rfl

theorem irAteLoop_true_label {σ : Type} (E : StepperEnv σ) (alvo : String)
    (alvoT : Option Int) (hp : Bool) :
    ∀ fuel s, (irAteLoop E alvo alvoT hp fuel s).1 = true →
      containsStr (E.ler (irAteLoop E alvo alvoT hp fuel s).2.1) alvo = true := by
  intro fuel
  induction fuel with
  | zero =>
    intro s h
    exact Bool.noConfusion (show (false : Bool) = true from h)
  | succ f ih =>
    intro s h
    rw [irAteLoop_succ] at h ⊢
    generalize hc : (if escolherDirecao (E.ler s) alvoT hp = -1 then E.clickPrev s
      else E.clickNext s) = c at h ⊢
    split_ifs at h ⊢ with h1 h2 h3
    · exact h1.2
    · exact ih _ h
    · have hlbl := h3.2
      rw [esperarTextoMudar_fst] at hlbl
      exact hlbl
    · exact ih _ h

theorem irAteLoop_clicks_le {σ : Type} (E : StepperEnv σ) (alvo : String)
    (alvoT : Option Int) (hp : Bool) :
    ∀ fuel s, (irAteLoop E alvo alvoT hp fuel s).2.2 ≤ fuel := by
  intro fuel
  induction fuel with
  | zero => intro s; exact le_rfl
  | succ f ih =>
    intro s
    rw [irAteLoop_succ]
    generalize hc : (if escolherDirecao (E.ler s) alvoT hp = -1 then E.clickPrev s
      else E.clickNext s) = c
    split_ifs with h1 h2 h3
    · exact Nat.zero_le _
    · exact Nat.succ_le_succ (ih _)
    · exact Nat.succ_le_succ (Nat.zero_le f)
    · exact Nat.succ_le_succ (ih _)

theorem irAteLoop_entry {σ : Type} (E : StepperEnv σ) (alvo : String) (alvoT : Option Int)
    (hp : Bool) (f : Nat) (s : σ) (h1 : E.ler s ≠ "")
    (h2 : containsStr (E.ler s) alvo = true) :
    irAteLoop E alvo alvoT hp (f + 1) s = (true, s, 0) := by
  rw [irAteLoop_succ, if_pos ⟨h1, h2⟩]

theorem irAteDataPorBotoes_eq {σ : Type} (E : StepperEnv σ) (alvo : String)
    (maxSteps : Nat) (s : σ) :
    irAteDataPorBotoes E alvo maxSteps s =
      if E.hasNextBtn (E.fechar s) = false ∧ E.hasPrevBtn (E.fechar s) = false then
        (false, E.fechar s, 0)
      else if E.ler (E.fechar s) ≠ "" ∧ containsStr (E.ler (E.fechar s)) alvo then
        (true, E.fechar s, 0)
      else irAteLoop E alvo (rataStrOpt alvo) (E.hasPrevBtn (E.fechar s)) maxSteps
        (E.fechar s) := rfl

theorem irAte_true_label {σ : Type} (E : StepperEnv σ) (alvo : String) :
    ∀ n s, (irAteDataPorBotoes E alvo n s).1 = true →
      containsStr (E.ler (irAteDataPorBotoes E alvo n s).2.1) alvo = true := by
  intro n s h
  rw [irAteDataPorBotoes_eq] at h ⊢
  split_ifs at h ⊢ with h1 h2
  all_goals first
    | exact Bool.noConfusion (show (false : Bool) = true from h)
    | exact h2.2
    | exact irAteLoop_true_label E alvo (rataStrOpt alvo) (E.hasPrevBtn (E.fechar s)) n
        (E.fechar s) h

theorem irAte_entry {σ : Type} (E : StepperEnv σ) (alvo : String) (n : Nat) (s : σ)
    (hb : ¬(E.hasNextBtn (E.fechar s) = false ∧ E.hasPrevBtn (E.fechar s) = false))
    (h1 : E.ler (E.fechar s) ≠ "") (h2 : containsStr (E.ler (E.fechar s)) alvo = true) :
    irAteDataPorBotoes E alvo n s = (true, E.fechar s, 0) := by
  rw [irAteDataPorBotoes_eq, if_neg hb, if_pos ⟨h1, h2⟩]

theorem irAte_clicks_le {σ : Type} (E : StepperEnv σ) (alvo : String) (n : Nat) (s : σ) :
    (irAteDataPorBotoes E alvo n s).2.2 ≤ n := by
  rw [irAteDataPorBotoes_eq]
  split_ifs with h1 h2
  · exact Nat.zero_le _
  · exact Nat.zero_le _
  · exact irAteLoop_clicks_le E alvo (rataStrOpt alvo) (E.hasPrevBtn (E.fechar s)) n
      (E.fechar s)

theorem selBtns_succ {σ : Type} (E : StepperEnv σ) (dataBR : String) (t : Nat) (s : σ) :
    selecionarDataComConfirmacaoBtns E dataBR (t + 1) s =
      if (irAteDataPorBotoes E dataBR 220 s).1 then
        (true, (irAteDataPorBotoes E dataBR 220 s).2.1)
      else selecionarDataComConfirmacaoBtns E dataBR t
        (E.wait (E.fechar (irAteDataPorBotoes E dataBR 220 s).2.1)) := rfl

theorem selBtns_true {σ : Type} (E : StepperEnv σ) (dataBR : String) :
    ∀ t s sf, selecionarDataComConfirmacaoBtns E dataBR t s = (true, sf) →
      containsStr (E.ler sf) dataBR = true := by
  intro t
  induction t with
  | zero =>
    intro s sf h
    have : (false, s) = ((true : Bool), sf) := h
    simp at this
  | succ t ih =>
    intro s sf h
    rw [selBtns_succ] at h
    split_ifs at h with hok
    · have hsf : (irAteDataPorBotoes E dataBR 220 s).2.1 = sf := by
        have := (Prod.mk.injEq _ _ _ _).mp h
        exact this.2
      rw [← hsf]
      exact irAte_true_label E dataBR 220 s hok
    · exact ih _ _ h

theorem selCal_succ {σ : Type} (E : CalConfEnv σ) (dataBR : String) (t : Nat) (s : σ) :
    selecionarDataComConfirmacao E dataBR (t + 1) s =
      if (E.clickCal s).1 = false then
        selecionarDataComConfirmacao E dataBR t (E.wait (E.clickCal s).2)
      else if trimStr (E.readBtn (E.clickCal s).2) = dataBR then (true, (E.clickCal s).2)
      else selecionarDataComConfirmacao E dataBR t (E.wait (E.clickCal s).2) := rfl

theorem selCal_true {σ : Type} (E : CalConfEnv σ) (dataBR : String) :
    ∀ t s sf, selecionarDataComConfirmacao E dataBR t s = (true, sf) →
      trimStr (E.readBtn sf) = dataBR := by
  intro t
  induction t with
  | zero =>
    intro s sf h
    have : (false, s) = ((true : Bool), sf) := h
    simp at this
  | succ t ih =>
    intro s sf h
    rw [selCal_succ] at h
    split_ifs at h with hclick heq
    · exact ih _ _ h
    · have hsf : (E.clickCal s).2 = sf := by
        have := (Prod.mk.injEq _ _ _ _).mp h
        exact this.2
      rw [← hsf]
      exact heq
    · exact ih _ _ h

/-- C1 (amended): for every target date string, whenever the Calendar-Grid
variant of `selecionarDataComConfirmacao` reports success, the re-read
(trimmed) date-button text equals the canonical target string exactly;
whenever the Linear-Stepper variant reports success, the re-read displayed
label contains the canonical target string as a substring — but, unlike
the calendar variant, it need not equal it (see the counterexample). -/
theorem C1_confirmation_no_false_positives (dataBR : String) :
    (∀ (σ1 : Type) (E1 : CalConfEnv σ1) (n : Nat) (s sf : σ1),
      selecionarDataComConfirmacao E1 dataBR n s = (true, sf) →
      trimStr (E1.readBtn sf) = dataBR) ∧
    (∀ (σ2 : Type) (E2 : StepperEnv σ2) (n : Nat) (s sf : σ2),
      selecionarDataComConfirmacaoBtns E2 dataBR n s = (true, sf) →
      containsStr (E2.ler sf) dataBR = true) :=
  ⟨fun _ E1 n s sf h => selCal_true E1 dataBR n s sf h,
   fun _ E2 n s sf h => selBtns_true E2 dataBR n s sf h⟩

/-- Witness for C1: two successful runs over a unit-state page whose label
is exactly the target. -/
theorem C1_witness :
    trimStr ((⟨fun _ => (true, ()), fun _ => "05/03/2026", id⟩ :
      CalConfEnv Unit).readBtn ()) = "05/03/2026" ∧
    containsStr ((⟨id, fun _ => true, fun _ => true, fun _ => "05/03/2026",
      fun _ => (true, ()), fun _ => (true, ()), id⟩ :
        StepperEnv Unit).ler ()) ("05/03/2026") = true := by
  have h := C1_confirmation_no_false_positives ("05/03/2026")
  exact ⟨h.1 Unit ⟨fun _ => (true, ()), fun _ => "05/03/2026", id⟩ 3 () () (by decide),
    h.2 Unit ⟨id, fun _ => true, fun _ => true, fun _ => "05/03/2026",
      fun _ => (true, ()), fun _ => (true, ()), id⟩ 2 () () (by decide)⟩

/-- Counterexample to C1 as stated: under the Linear-Stepper strategy the
confirmation succeeds because the label "05/03/2026 - quarta-feira" merely
contains the target token, yet re-reading the displayed label yields a
string different from the canonical target — success does not imply
equality for this strategy. -/
theorem C1_counterexample :
    selecionarDataComConfirmacaoBtns cexStepperEnv ("05/03/2026") 2 () = (true, ()) ∧
    ¬(cexStepperEnv.ler () = "05/03/2026") := by
  exact ⟨by decide, by decide⟩

theorem escolherDirecao_none {raw : String} (alvoT : Option Int) (hp : Bool)
    (h : extrairDataBR raw = "") : escolherDirecao raw alvoT hp = 1 := by
  unfold escolherDirecao
  rw [h]
  rfl

theorem escolherDirecao_some {raw alvo : String} {dta dtt : MyDate} (hp : Bool)
    (hdta : parseBRDate (extrairDataBR raw) = some dta)
    (hdtt : parseBRDate alvo = some dtt) :
    escolherDirecao raw (rataStrOpt alvo) hp = -1 ↔
      (hp = true ∧ rata dtt < rata dta) := by
  have hne : extrairDataBR raw ≠ "" := by
    intro h0
    rw [h0] at hdta
    exact Option.noConfusion (show (none : Option MyDate) = some dta from hdta)
  unfold escolherDirecao
  rw [if_pos hne]
  have hgt : optGt (rataStrOpt (extrairDataBR raw)) (rataStrOpt alvo) =
      decide (rata dtt < rata dta) := by
    unfold rataStrOpt
    rw [hdta, hdtt]
    rfl
  rw [hgt]
  by_cases hcond : (hp && decide (rata dtt < rata dta)) = true
  · rw [if_pos hcond]
    simp only [Bool.and_eq_true, decide_eq_true_eq] at hcond
    exact iff_of_true rfl hcond
  · rw [if_neg hcond]
    simp only [Bool.and_eq_true, decide_eq_true_eq] at hcond
    exact iff_of_false (by decide) hcond

/-- C4 (amended): the Linear-Stepper navigator requires at least one
directional control: when neither exists it reports failure immediately,
even if the label already shows the target (see the counterexample).
Provided the control-existence guard passes: if the (overlay-dismissed)
label already contains the target's canonical string, it succeeds with
zero directional clicks; on each step with an extractable `DD/MM/YYYY`
token it chooses backward exactly when the backward control exists and the
target is earlier than the displayed date, and forward otherwise
(defaulting forward when no token is extractable); whenever it reports
success the final label contains the target string; and its directional
click count never exceeds the step bound. -/
theorem C4_stepper_navigator (σ : Type) (E : StepperEnv σ) (alvo : String) :
    (∀ n s, ¬(E.hasNextBtn (E.fechar s) = false ∧ E.hasPrevBtn (E.fechar s) = false) →
      E.ler (E.fechar s) ≠ "" → containsStr (E.ler (E.fechar s)) alvo = true →
      irAteDataPorBotoes E alvo n s = (true, E.fechar s, 0)) ∧
    (∀ raw hp, (extrairDataBR raw = "" →
        escolherDirecao raw (rataStrOpt alvo) hp = 1) ∧
      (∀ dta dtt, parseBRDate (extrairDataBR raw) = some dta →
        parseBRDate alvo = some dtt →
        (escolherDirecao raw (rataStrOpt alvo) hp = -1 ↔
          (hp = true ∧ rata dtt < rata dta)))) ∧
    (∀ n s, (irAteDataPorBotoes E alvo n s).1 = true →
      containsStr (E.ler (irAteDataPorBotoes E alvo n s).2.1) alvo = true) ∧
    (∀ n s, (irAteDataPorBotoes E alvo n s).2.2 ≤ n) :=
  ⟨fun n s hb h1 h2 => irAte_entry E alvo n s hb h1 h2,
   fun raw hp =>
     ⟨fun h => escolherDirecao_none (rataStrOpt alvo) hp h,
      fun dta dtt hdta hdtt => escolherDirecao_some hp hdta hdtt⟩,
   fun n s h => irAte_true_label E alvo n s h,
   fun n s => irAte_clicks_le E alvo n s⟩

/-- Witness for C4: entry success with zero clicks on a page already
showing the target, and a backward direction choice when the displayed
date 10/03/2026 is later than the target 05/03/2026. -/
theorem C4_witness :
    irAteDataPorBotoes (⟨id, fun _ => true, fun _ => true, fun _ => "05/03/2026",
        fun _ => (true, ()), fun _ => (true, ()), id⟩ : StepperEnv Unit)
      ("05/03/2026") 180 () = (true, (), 0) ∧
    escolherDirecao ("pauta 10/03/2026") (rataStrOpt ("05/03/2026")) true = -1 := by
  have h := C4_stepper_navigator Unit
    (⟨id, fun _ => true, fun _ => true, fun _ => "05/03/2026",
      fun _ => (true, ()), fun _ => (true, ()), id⟩ : StepperEnv Unit) ("05/03/2026")
  refine ⟨h.1 180 () (by decide) (by decide) (by decide), ?_⟩
  exact ((h.2.1 ("pauta 10/03/2026") true).2 ⟨2026, 3, 10⟩ ⟨2026, 3, 5⟩
    (by decide) (by decide)).mpr ⟨rfl, by decide⟩

/-- Counterexample to C4 as stated: with no directional controls present
the navigator reports failure even though the displayed label already
contains the target's canonical string, contradicting the unconditional
"already displayed implies success" reading. -/
theorem C4_counterexample :
    irAteDataPorBotoes cexNoButtonsEnv ("05/03/2026") 180 () = (false, (), 0) ∧
    containsStr (cexNoButtonsEnv.ler ()) ("05/03/2026") = true := by
  exact ⟨by decide, by decide⟩

/- ===== Lemmas: calendar-grid month navigation ===== -/

theorem navegarParaMes_succ_none {σ : Type} {E : CalNavEnv σ} {s : σ}
    (target : MyDate) (f : Nat) (h : E.approx s = none) :
    navegarParaMes E target (f + 1) s =
      navegarParaMes E target f (E.wait (E.next s)) := by
  simp only [navegarParaMes, h]

theorem navegarParaMes_succ_some {σ : Type} {E : CalNavEnv σ} {s : σ} {a : MyDate}
    (target : MyDate) (f : Nat) (h : E.approx s = some a) :
    navegarParaMes E target (f + 1) s =
      if sameMonthYear a target then (true, s)
      else if a.y * 12 + ((a.m : Int) - 1) <
          target.y * 12 + ((target.m : Int) - 1) then
        navegarParaMes E target f (E.wait (E.next s))
      else navegarParaMes E target f (E.wait (E.prev s)) := by
  simp only [navegarParaMes, h]

theorem sameMonthYear_iff (a b : MyDate) :
    sameMonthYear a b = true ↔ (a.y = b.y ∧ a.m = b.m) := by
  unfold sameMonthYear
  simp

/-- C6: over any page on which the header always parses (to a real month)
and the arrow clicks move the header key `year*12 + monthIdx` by exactly
±1, `navegarParaMes` is governed by the linearized key: the `sameMonthYear`
stop test is equivalent to key equality; starting at key distance `d` from
the target, any step budget above `d` reaches the target month exactly
(stopping there — never overshooting), and with a budget of at most `d`
every step strictly decreases the distance by one, the budget is exhausted
and the navigation reports failure. -/
theorem C6_navegarParaMes_monotone (σ : Type) (E : CalNavEnv σ) (target : MyDate)
    (k : σ → Int)
    (happrox : ∀ s, ∃ a, E.approx s = some a ∧ 1 ≤ a.m ∧ a.m ≤ 12 ∧
      a.y * 12 + ((a.m : Int) - 1) = k s)
    (hnext : ∀ s, k (E.wait (E.next s)) = k s + 1)
    (hprev : ∀ s, k (E.wait (E.prev s)) = k s - 1)
    (htm1 : 1 ≤ target.m) (htm2 : target.m ≤ 12) :
    (∀ a : MyDate, 1 ≤ a.m → a.m ≤ 12 →
      (sameMonthYear a target = true ↔
        a.y * 12 + ((a.m : Int) - 1) = target.y * 12 + ((target.m : Int) - 1))) ∧
    (∀ f s,
      ((target.y * 12 + ((target.m : Int) - 1) - k s).natAbs < f →
        (navegarParaMes E target f s).1 = true ∧
        k (navegarParaMes E target f s).2 =
          target.y * 12 + ((target.m : Int) - 1)) ∧
      (f ≤ (target.y * 12 + ((target.m : Int) - 1) - k s).natAbs →
        (navegarParaMes E target f s).1 = false ∧
        (target.y * 12 + ((target.m : Int) - 1) -
            k (navegarParaMes E target f s).2).natAbs =
          (target.y * 12 + ((target.m : Int) - 1) - k s).natAbs - f)) := by
  constructor
  · intro a h1 h2
    rw [sameMonthYear_iff]
    constructor
    · rintro ⟨hy, hm⟩
      rw [hy, hm]
    · intro hkey
      constructor <;> omega
  · intro f
    induction f with
    | zero =>
      intro s
      constructor
      · intro h
        exact absurd h (by omega)
      · intro _
        refine ⟨rfl, ?_⟩
        show (target.y * 12 + ((target.m : Int) - 1) - k s).natAbs = _
        omega
    | succ f ih =>
      intro s
      obtain ⟨a, ha, hm1, hm2, hk⟩ := happrox s
      rw [navegarParaMes_succ_some target f ha]
      by_cases hsame : sameMonthYear a target = true
      · rw [if_pos hsame]
        obtain ⟨hy, hm⟩ := (sameMonthYear_iff a target).mp hsame
        have hks : k s = target.y * 12 + ((target.m : Int) - 1) := by
          rw [← hk, hy, hm]
        constructor
        · intro _
          exact ⟨rfl, hks⟩
        · intro hf
          rw [hks] at hf
          exact absurd hf (by omega)
      · rw [if_neg hsame]
        have hkne : k s ≠ target.y * 12 + ((target.m : Int) - 1) := by
          intro heq
          apply hsame
          rw [sameMonthYear_iff]
          rw [← hk] at heq
          constructor <;> omega
        by_cases hdir : a.y * 12 + ((a.m : Int) - 1) <
            target.y * 12 + ((target.m : Int) - 1)
        · rw [if_pos hdir]
          rw [hk] at hdir
          have hstep := hnext s
          constructor
          · intro h
            exact (ih (E.wait (E.next s))).1 (by omega)
          · intro hf
            obtain ⟨hb, hd⟩ := (ih (E.wait (E.next s))).2 (by omega)
            exact ⟨hb, by omega⟩
        · rw [if_neg hdir]
          rw [hk] at hdir
          have hstep := hprev s
          constructor
          · intro h
            exact (ih (E.wait (E.prev s))).1 (by omega)
          · intro hf
            obtain ⟨hb, hd⟩ := (ih (E.wait (E.prev s))).2 (by omega)
            exact ⟨hb, by omega⟩

/-- Witness for C6 on the integer-key calendar page with target May 2025. -/
theorem C6_witness :
    (∀ a : MyDate, 1 ≤ a.m → a.m ≤ 12 →
      (sameMonthYear a ⟨2025, 5, 1⟩ = true ↔
        a.y * 12 + ((a.m : Int) - 1) =
          (⟨2025, 5, 1⟩ : MyDate).y * 12 + (((⟨2025, 5, 1⟩ : MyDate).m : Int) - 1))) ∧
    (∀ f s,
      (((⟨2025, 5, 1⟩ : MyDate).y * 12 + (((⟨2025, 5, 1⟩ : MyDate).m : Int) - 1) -
          s).natAbs < f →
        (navegarParaMes keyCalNavEnv ⟨2025, 5, 1⟩ f s).1 = true ∧
        (navegarParaMes keyCalNavEnv ⟨2025, 5, 1⟩ f s).2 =
          (⟨2025, 5, 1⟩ : MyDate).y * 12 + (((⟨2025, 5, 1⟩ : MyDate).m : Int) - 1)) ∧
      (f ≤ ((⟨2025, 5, 1⟩ : MyDate).y * 12 + (((⟨2025, 5, 1⟩ : MyDate).m : Int) - 1) -
          s).natAbs →
        (navegarParaMes keyCalNavEnv ⟨2025, 5, 1⟩ f s).1 = false ∧
        ((⟨2025, 5, 1⟩ : MyDate).y * 12 + (((⟨2025, 5, 1⟩ : MyDate).m : Int) - 1) -
            (navegarParaMes keyCalNavEnv ⟨2025, 5, 1⟩ f s).2).natAbs =
          ((⟨2025, 5, 1⟩ : MyDate).y * 12 + (((⟨2025, 5, 1⟩ : MyDate).m : Int) - 1) -
            s).natAbs - f)) := by
  refine C6_navegarParaMes_monotone Int keyCalNavEnv ⟨2025, 5, 1⟩ (fun s => s)
    ?_ (fun s => rfl) (fun s => rfl) (by decide) (by decide)
  intro s
  refine ⟨⟨s / 12, (s % 12).toNat + 1, 1⟩, rfl, ?_, ?_, ?_⟩ <;>
    simp only [MyDate_m, MyDate_y] <;> push_cast <;> omega
